import Mathlib

/-!
# Node-local storage pool (`src/src/H5LS.c`)

A shallow embedding of the space-claim and eviction code of the HDF5 cache
connector's local-storage manager, and theorems about it.

Conventions of the embedding.

* A `cache_t *` is a natural number; `0` is `NULL`.  The cache objects live in
  `cache_storage_t.heap`; `free` sets the slot to `none`.  Reading through
  `NULL` or through a pointer whose slot is `none` is undefined behaviour.
* A `CacheList *` chain is the list of the `cache` fields of its nodes, in
  traversal order.  `H5LSclaim_space` and `H5LSremove_cache` never write a
  node, so the two chains `cache_head` and `cache_list` are two such lists.
  `H5LSremove_cache_all` writes the nodes of `cache_head` only, and
  `H5LSregister_cache` replaces `cache_list` by a new node.
* `hsize_t` is an unsigned 64-bit integer: a natural number, with `% 2 ^ 64`
  where the code adds.
* `double` accumulators only ever hold non-negative integers here; they are
  natural numbers, and every conversion or addition rounds with `toDouble`
  (IEEE-754 binary64, round to nearest even), the identity below `2 ^ 53`.
* Loops that the code does not bound take fuel; running out of fuel is
  reported as `Outcome.timeout`.
-/

namespace H5LS

/-! ## Constants and enumerations -/

/-- The macro `FAIL` of `H5LS.c`. -/
def FAIL : Int := -1

/-- The macro `SUCCEED` of `H5LS.c`. -/
def SUCCEED : Int := 0

/-- Retention class of a cache (`cache->duration`). -/
inductive cache_duration_t where
  | TEMPORAL
  | PERSISTENT
  deriving DecidableEq, Repr

/-- Kind of a claim (`type` of `H5LSclaim_space`). -/
inductive cache_claim_t where
  | HARD
  | SOFT
  deriving DecidableEq, Repr

/-- Replacement policy (`crp` of `H5LSclaim_space`). -/
inductive cache_replacement_policy_t where
  | LRU
  | LFU
  | FIFO
  | LIFO
  deriving DecidableEq, Repr

/-! ## Floating point -/

/-- Conversion of a natural number to `double`: round to nearest, ties to
even, with a 53-bit significand.  The result is again a natural number. -/
def toDouble (n : Nat) : Nat :=
  if n < 2 ^ 53 then n
  else
    let u := 2 ^ (Nat.log 2 n - 52)
    let q := n / u
    let r := n % u
    if 2 * r < u then q * u
    else if u < 2 * r then (q + 1) * u
    else if q % 2 = 0 then q * u
    else (q + 1) * u

/-- Conversion of a signed integer (a `time_t` quotient) to `double`. -/
def toDoubleInt (z : Int) : Int :=
  if 0 ≤ z then (toDouble z.toNat : Int) else -(toDouble (-z).toNat : Int)

/-! ## Data model -/

/-- The access log of a cache: `time_stamp` is the array (its length is
`MAX_NUM_CACHE_ACCESS`), `count` the `int` counter. -/
structure AccessHistory where
  time_stamp : List Int
  count : Int
  deriving DecidableEq, Repr

/-- The fields of `cache_t` that the storage manager reads. -/
structure cache_t where
  mspace_total : Nat
  duration : cache_duration_t
  access_history : AccessHistory
  deriving DecidableEq, Repr

/-- What the code does to the outside world, and the calls it makes to
`H5LSremove_cache`, in order (oldest first). -/
inductive Event where
  | removeCacheFolder (cache : Nat)
  | remove_cache (cache : Nat)
  deriving DecidableEq, Repr

/-- The fields of `cache_storage_t` that the storage manager uses, the heap
of cache objects, and the trace of events. -/
structure cache_storage_t where
  scope : String
  mspace_total : Nat
  mspace_left : Nat
  cache_list : List Nat
  cache_head : List Nat
  io_node : Bool
  replacement_policy : cache_replacement_policy_t
  heap : Nat → Option cache_t
  trace : List Event

/-- Read through a `cache_t *`: `none` is undefined behaviour (`NULL`, or a
freed or never allocated object). -/
def cache_storage_t.deref (LS : cache_storage_t) (p : Nat) : Option cache_t :=
  if p = 0 then none else LS.heap p

/-- Result of running a function of the storage manager: it returned `r` in
state `LS`, or it reached undefined behaviour in state `LS`, or the fuel ran
out in state `LS`. -/
inductive Outcome where
  | ret (r : Int) (LS : cache_storage_t)
  | ub (LS : cache_storage_t)
  | timeout (LS : cache_storage_t)

/-- The pool state in which the run ended. -/
def Outcome.state : Outcome → cache_storage_t
  | .ret _ LS => LS
  | .ub LS => LS
  | .timeout LS => LS

/-! ## `H5LScompare_cache` -/

/-- The array read `h.time_stamp[i]`; out of bounds is undefined. -/
def AccessHistory.read (h : AccessHistory) (i : Int) : Option Int :=
  if 0 ≤ i then h.time_stamp[i.toNat]? else none

/-- The quotient `(time_stamp[count] - time_stamp[0]) / count` of the LFU
branch, an integer division (truncating), undefined when `count = 0` and
when the difference is not a signed 64-bit `time_t`, converted to `double`. -/
def AccessHistory.meanInterval (h : AccessHistory) : Option Int :=
  match h.read h.count, h.read 0 with
  | some latest, some first =>
    if h.count = 0 then none
    else if latest - first < -9223372036854775808 ∨ 9223372036854775808 ≤ latest - first then
      none
    else some (toDoubleInt ((latest - first).tdiv h.count))
  | _, _ => none

/-- `H5LScompare_cache(a, b, replacement_policy)`: `some true` when `a` is to
be selected, `none` on undefined behaviour. -/
def H5LScompare_cache (a b : cache_t) (replacement_policy : cache_replacement_policy_t) :
    Option Bool :=
  match replacement_policy with
  | .LRU =>
    match a.access_history.read a.access_history.count,
        b.access_history.read b.access_history.count with
    | some ta, some tb => some (decide (ta < tb))
    | _, _ => none
  | .FIFO =>
    match a.access_history.read 0, b.access_history.read 0 with
    | some ta, some tb => some (decide (ta < tb))
    | _, _ => none
  | .LFU =>
    match a.access_history.meanInterval, b.access_history.meanInterval with
    | some fa, some fb => some (decide (fa < fb))
    | _, _ => none
  | .LIFO =>
    match a.access_history.read a.access_history.count,
        b.access_history.read b.access_history.count with
    | some ta, some tb => some (decide (ta < tb))
    | _, _ => none

/-! ## `H5LSremove_cache` -/

/-- `H5LSremove_cache(LS, cache)`.  The backend call is made when
`LS->io_node` and `strcmp(LS->scope, "GLOBAL")` is non-zero; the walk from
`cache_head` stops at the first node whose `cache` is `NULL` or is `cache`;
when it is `cache`, the size is credited and the object freed.  No node is
unlinked. -/
def H5LSremove_cache (LS : cache_storage_t) (cache : Nat) : Outcome :=
  let LS0 := { LS with trace := LS.trace ++ [Event.remove_cache cache] }
  if cache ≠ 0 then
    let LS1 :=
      if LS0.io_node && (LS0.scope != "GLOBAL") then
        { LS0 with trace := LS0.trace ++ [Event.removeCacheFolder cache] }
      else LS0
    match LS1.cache_head.dropWhile (fun c => c != 0 && c != cache) with
    | c :: _ =>
      if c != 0 && c == cache then
        match LS1.deref cache with
        | none => Outcome.ub LS1
        | some obj =>
          Outcome.ret 0
            { LS1 with
              mspace_left := (LS1.mspace_left + obj.mspace_total) % 2 ^ 64
              heap := Function.update LS1.heap cache none }
      else Outcome.ret 0 LS1
    | [] => Outcome.ret 0 LS1
  else Outcome.ret FAIL LS0

/-! ## `H5LSclaim_space` -/

/-- The first loop of the HARD branch of `H5LSclaim_space`: walk the chain
from `cache_head`, add the size of every TEMPORAL cache to the `double`
accumulator `mspace`, and leave in `tmp` the last TEMPORAL cache seen.
Returns `none` when a node's cache cannot be read. -/
def sum_temporal (LS : cache_storage_t) : List Nat → Nat → Nat → Option (Nat × Nat)
  | [], mspace, tmp => some (mspace, tmp)
  | c :: rest, mspace, tmp =>
    match LS.deref c with
    | none => none
    | some obj =>
      if obj.duration = cache_duration_t.TEMPORAL then
        sum_temporal LS rest (toDouble (mspace + toDouble obj.mspace_total)) c
      else sum_temporal LS rest mspace tmp

/-- Result of the inner scan of the eviction loop. -/
inductive ScanResult where
  | done (tmp stay : Nat)
  | ub
  | timeout
  deriving DecidableEq, Repr

/-- The inner loop of the eviction loop, from the node whose chain is the
list argument.  One unit of fuel per iteration.  When `mspace > 0` the
`continue` skips `head = head->next`, so the same node is visited again. -/
def scan_cache_list (LS : cache_storage_t) (crp : cache_replacement_policy_t)
    (mspace : Nat) : Nat → List Nat → Nat → Nat → ScanResult
  | _, [], tmp, stay => ScanResult.done tmp stay
  | 0, _ :: _, _, _ => ScanResult.timeout
  | fuel + 1, c :: rest, tmp, stay =>
    match LS.deref c with
    | none => ScanResult.ub
    | some obj =>
      let cond : Option Bool :=
        if obj.duration = cache_duration_t.TEMPORAL then
          match LS.deref tmp with
          | none => none
          | some t => H5LScompare_cache obj t crp
        else some false
      match cond with
      | none => ScanResult.ub
      | some b =>
        let tmp1 := if b then c else tmp
        let stay1 := if b then c else stay
        if 0 < mspace then scan_cache_list LS crp mspace fuel (c :: rest) tmp1 stay1
        else scan_cache_list LS crp mspace fuel rest tmp1 stay1

/-- The eviction loop `while (mspace < size)` of `H5LSclaim_space`, followed by
the function's final `return 0`.  One unit of fuel per round; the inner scan
gets the fuel that is left. -/
def evict_loop (size : Nat) (crp : cache_replacement_policy_t) :
    Nat → cache_storage_t → Nat → Nat → Nat → Outcome
  | 0, LS, _, _, _ => Outcome.timeout LS
  | fuel + 1, LS, mspace, tmp, stay =>
    if mspace < toDouble size then
      match scan_cache_list LS crp mspace fuel LS.cache_list tmp stay with
      | ScanResult.ub => Outcome.ub LS
      | ScanResult.timeout => Outcome.timeout LS
      | ScanResult.done tmp1 stay1 =>
        match LS.deref tmp1 with
        | none => Outcome.ub LS
        | some obj =>
          match H5LSremove_cache LS tmp1 with
          | Outcome.ret _ LS1 =>
            evict_loop size crp fuel LS1 (toDouble (mspace + toDouble obj.mspace_total))
              stay1 stay1
          | o => o
    else Outcome.ret 0 LS

/-- `H5LSclaim_space(LS, size, type, crp)`.  `tmp0` is the indeterminate
initial value of the local `tmp`. -/
def H5LSclaim_space (fuel : Nat) (LS : cache_storage_t) (size : Nat) (type : cache_claim_t)
    (crp : cache_replacement_policy_t) (tmp0 : Nat) : Outcome :=
  if LS.mspace_total < size then Outcome.ret FAIL LS
  else if LS.mspace_left > size then
    Outcome.ret SUCCEED { LS with mspace_left := LS.mspace_left - size }
  else if type = cache_claim_t.SOFT then Outcome.ret FAIL LS
  else
    match sum_temporal LS LS.cache_head 0 tmp0 with
    | none => Outcome.ub LS
    | some (mspace, tmp) =>
      if mspace < toDouble size then Outcome.ret FAIL LS
      else evict_loop size crp fuel LS 0 tmp tmp

/-! ## `H5LSremove_cache_all` -/

/-- The loop of `H5LSremove_cache_all`, at the node whose chain is the fourth
argument; `before` holds the `cache` fields of the nodes already passed.
`head = head->next` is inside `if (LS->io_node)`, so on another process the
same node is visited again.  On the I/O node the backend is called on
`head->cache->path`, the cache is freed and the node's `cache` field is set
to `NULL`; a `NULL` or already freed cache is undefined behaviour there.
`removeCacheFolder` gives what the backend returns for each cache.  The nodes
are those of `cache_head`; `cache_list` is left as it was. -/
def remove_cache_all_loop (removeCacheFolder : Nat → Int) :
    Nat → cache_storage_t → List Nat → List Nat → Int → Outcome
  | _, LS, _, [], ret_value => Outcome.ret ret_value LS
  | 0, LS, _, _ :: _, _ => Outcome.timeout LS
  | fuel + 1, LS, before, c :: rest, ret_value =>
    if LS.io_node then
      match LS.deref c with
      | none => Outcome.ub LS
      | some _ =>
        remove_cache_all_loop removeCacheFolder fuel
          { LS with
            trace := LS.trace ++ [Event.removeCacheFolder c]
            heap := Function.update LS.heap c none
            cache_head := before ++ 0 :: rest }
          (before ++ [0]) rest (removeCacheFolder c)
    else remove_cache_all_loop removeCacheFolder fuel LS before (c :: rest) ret_value

/-- `H5LSremove_cache_all(LS)`.  `ret0` is the indeterminate initial value of
the local `ret_value`. -/
def H5LSremove_cache_all (removeCacheFolder : Nat → Int) (fuel : Nat) (LS : cache_storage_t)
    (ret0 : Int) : Outcome :=
  remove_cache_all_loop removeCacheFolder fuel LS [] LS.cache_head ret0

/-! ## `H5LSregister_cache` -/

/-- `H5LSregister_cache(LS, cache, target)`.  `LS->cache_list` becomes a newly
allocated node holding `cache`; the node's `next` field is not written, and
`next0` is the chain that its indeterminate value leads to.  Then
`time_stamp[0]` is set to `now`, the value of `time(NULL)`, and `count` to 0.
Nothing is compared with the caches already in a chain.  `target` is only
stored in the node and is left out. -/
def H5LSregister_cache (LS : cache_storage_t) (cache : Nat) (now : Int) (next0 : List Nat) :
    Outcome :=
  let LS1 := { LS with cache_list := cache :: next0 }
  match LS1.deref cache with
  | none => Outcome.ub LS1
  | some obj =>
    match obj.access_history.time_stamp with
    | [] => Outcome.ub LS1
    | _ :: later =>
      Outcome.ret SUCCEED
        { LS1 with
          heap := Function.update LS1.heap cache
            (some { obj with access_history := { time_stamp := now :: later, count := 0 } }) }

/-! ## `H5LSrecord_cache_access` -/

/-- `H5LSrecord_cache_access(cache)` on the cache that the pointer designates.
`MAX_NUM_CACHE_ACCESS` is the macro of that name, `now` the value of
`time(NULL)`.  `count` is an `int`: incrementing it past `2 ^ 31 - 1` is
undefined, as are a remainder by zero and a write outside the array. -/
def H5LSrecord_cache_access (MAX_NUM_CACHE_ACCESS : Nat) (now : Int) (cache : cache_t) :
    Option (Int × cache_t) :=
  let count := cache.access_history.count + 1
  if 2 ^ 31 ≤ count then none
  else
    let index : Option Int :=
      if count < MAX_NUM_CACHE_ACCESS then some count
      else if MAX_NUM_CACHE_ACCESS = 0 then none
      else some (count.tmod MAX_NUM_CACHE_ACCESS)
    match index with
    | none => none
    | some i =>
      if 0 ≤ i ∧ i.toNat < cache.access_history.time_stamp.length then
        some (SUCCEED,
          { cache with
            access_history :=
              { time_stamp := cache.access_history.time_stamp.set i.toNat now
                count := count } })
      else none

/-- The cache after the accesses at the given times, in order. -/
def record_accesses (MAX_NUM_CACHE_ACCESS : Nat) : List Int → cache_t → Option cache_t
  | [], cache => some cache
  | now :: later, cache =>
    match H5LSrecord_cache_access MAX_NUM_CACHE_ACCESS now cache with
    | none => none
    | some (_, cache1) => record_accesses MAX_NUM_CACHE_ACCESS later cache1

/-! ## Quantities the statements speak about -/

/-- Exact sum of `mspace_total` over the TEMPORAL caches of a chain (nodes
whose cache cannot be read count for nothing). -/
def temporal_bytes (LS : cache_storage_t) : List Nat → Nat
  | [] => 0
  | c :: rest =>
    match LS.deref c with
    | some obj =>
      if obj.duration = cache_duration_t.TEMPORAL then obj.mspace_total + temporal_bytes LS rest
      else temporal_bytes LS rest
    | none => temporal_bytes LS rest

/-- Every node of the chain holds a readable cache. -/
def AllLive (LS : cache_storage_t) (l : List Nat) : Prop :=
  ∀ p ∈ l, LS.deref p ≠ none

instance (LS : cache_storage_t) (l : List Nat) : Decidable (AllLive LS l) := by
  unfold AllLive
  infer_instance

/-- The return value, when the function returned. -/
def Outcome.code : Outcome → Option Int
  | .ret r _ => some r
  | _ => none

/-- Whether the run exhausted its fuel. -/
def Outcome.isTimeout : Outcome → Bool
  | .timeout _ => true
  | _ => false

/-- The cache that the first round of the eviction loop of a HARD claim
selects: the summing loop leaves the last TEMPORAL cache of `cache_head` in
`tmp`, then the scan of `cache_list` runs with `mspace = 0`. -/
def first_victim (LS : cache_storage_t) (crp : cache_replacement_policy_t) (tmp0 : Nat) :
    Option Nat :=
  match sum_temporal LS LS.cache_head 0 tmp0 with
  | none => none
  | some (_, tmp) =>
    match scan_cache_list LS crp 0 LS.cache_list.length LS.cache_list tmp tmp with
    | ScanResult.done tmp1 _ => some tmp1
    | _ => none

/-- The pointer, when readable, designates a TEMPORAL cache. -/
def TemporalIfLive (LS : cache_storage_t) (p : Nat) : Prop :=
  ∀ obj, LS.deref p = some obj → obj.duration = cache_duration_t.TEMPORAL

/-- `LS1` is `LS` after some calls of `H5LSremove_cache`, each on a cache that
was TEMPORAL: the chains are the same, every heap slot is as in `LS` or was a
TEMPORAL cache and is now freed, and the trace grew by events whose
`remove_cache` entries all name caches that were TEMPORAL in `LS`. -/
def OnlyTemporalRemoved (LS LS1 : cache_storage_t) : Prop :=
  LS1.cache_head = LS.cache_head ∧ LS1.cache_list = LS.cache_list ∧
  (∀ p, LS1.heap p = LS.heap p ∨
    (LS1.heap p = none ∧ ∃ obj, LS.heap p = some obj ∧
      obj.duration = cache_duration_t.TEMPORAL)) ∧
  ∃ evs, LS1.trace = LS.trace ++ evs ∧
    ∀ p, Event.remove_cache p ∈ evs → ∃ obj, LS.heap p = some obj ∧
      obj.duration = cache_duration_t.TEMPORAL

/-- Sum of the sizes of the distinct readable caches of the registry chain
`cache_head`: the bytes that `H5LSremove_cache` can still credit. -/
def registered_bytes (LS : cache_storage_t) : Nat :=
  ((LS.cache_head.dedup.filterMap LS.deref).map cache_t.mspace_total).sum

/-- The accounting of the pool is consistent: the free space and the sizes
of the registered caches together fit in the capacity, itself an `hsize_t`. -/
def CapacityConsistent (LS : cache_storage_t) : Prop :=
  LS.mspace_left + registered_bytes LS ≤ LS.mspace_total ∧ LS.mspace_total < 2 ^ 64

instance (LS : cache_storage_t) : Decidable (CapacityConsistent LS) := by
  unfold CapacityConsistent
  infer_instance

/-- The arguments of one call of `H5LSclaim_space`, and the fuel it gets. -/
structure ClaimCall where
  fuel : Nat
  size : Nat
  type : cache_claim_t
  crp : cache_replacement_policy_t
  tmp0 : Nat

/-- The pool states reached by a sequence of calls of `H5LSclaim_space`, one
per call, in order; the sequence stops at a call that does not return. -/
def claim_states : List ClaimCall → cache_storage_t → List cache_storage_t
  | [], _ => []
  | c :: cs, LS =>
    match H5LSclaim_space c.fuel LS c.size c.type c.crp c.tmp0 with
    | Outcome.ret _ LS1 => LS1 :: claim_states cs LS1
    | o => [o.state]

/-- Whether the run reached undefined behaviour. -/
def Outcome.isUb : Outcome → Bool
  | .ub _ => true
  | _ => false

/-- The number that `H5LScompare_cache` compares for a cache under a policy:
the time stamp at `count` (LRU, and the default branch that LIFO takes), the
time stamp at 0 (FIFO), the mean interval (LFU). -/
def eviction_key (crp : cache_replacement_policy_t) (obj : cache_t) : Option Int :=
  match crp with
  | .LRU => obj.access_history.read obj.access_history.count
  | .FIFO => obj.access_history.read 0
  | .LFU => obj.access_history.meanInterval
  | .LIFO => obj.access_history.read obj.access_history.count

/-- The latest access time as `H5LSrecord_cache_access` stores it: the slot
`count mod MAX_NUM_CACHE_ACCESS`. -/
def AccessHistory.latest (MAX_NUM_CACHE_ACCESS : Nat) (h : AccessHistory) : Option Int :=
  h.read (h.count % MAX_NUM_CACHE_ACCESS)

/-- The walk of `H5LSremove_cache` from `cache_head` is not stopped before
`cache`: no node that precedes the first node holding `cache` has a `NULL`
cache. -/
def WalkReaches (LS : cache_storage_t) (cache : Nat) : Prop :=
  0 ∉ LS.cache_head.takeWhile (fun c => c != cache)

instance (LS : cache_storage_t) (cache : Nat) : Decidable (WalkReaches LS cache) := by
  unfold WalkReaches
  infer_instance

/-! ## Concrete pools -/

/-- A cache of the given size and retention whose only access is at time `t`. -/
def mkCache (size : Nat) (d : cache_duration_t) (t : Int) : cache_t :=
  { mspace_total := size, duration := d,
    access_history := { time_stamp := [t], count := 0 } }

/-- A pool of capacity 100 on the I/O node, LOCAL scope, LRU, empty trace. -/
def mkPool (left : Nat) (cache_list cache_head : List Nat) (heap : Nat → Option cache_t) :
    cache_storage_t :=
  { scope := "LOCAL", mspace_total := 100, mspace_left := left, cache_list := cache_list,
    cache_head := cache_head, io_node := true,
    replacement_policy := cache_replacement_policy_t.LRU, heap := heap, trace := [] }

/-- The heap with no cache. -/
def emptyHeap : Nat → Option cache_t := fun _ => none

/-- A fresh pool: capacity 100, all of it free, nothing registered. -/
def freshPool : cache_storage_t := mkPool 100 [] [] emptyHeap

/-- Two TEMPORAL caches: 40 bytes last accessed at time 10 (pointer 1) and
50 bytes last accessed at time 20 (pointer 2). -/
def twoTemporalHeap : Nat → Option cache_t
  | 1 => some (mkCache 40 cache_duration_t.TEMPORAL 10)
  | 2 => some (mkCache 50 cache_duration_t.TEMPORAL 20)
  | _ => none

/-- Capacity 100, the two caches of `twoTemporalHeap` registered in that
order in both chains, 10 bytes free. -/
def twoTemporalPool : cache_storage_t := mkPool 10 [1, 2] [1, 2] twoTemporalHeap

/-- The two caches of `twoTemporalHeap` and a PERSISTENT cache of 10 bytes
(pointer 3). -/
def fullHeap : Nat → Option cache_t
  | 1 => some (mkCache 40 cache_duration_t.TEMPORAL 10)
  | 2 => some (mkCache 50 cache_duration_t.TEMPORAL 20)
  | 3 => some (mkCache 10 cache_duration_t.PERSISTENT 5)
  | _ => none

/-- Capacity 100, all of it used: the PERSISTENT cache first, then the two
TEMPORAL ones, in both chains. -/
def fullPool : cache_storage_t := mkPool 0 [3, 1, 2] [3, 1, 2] fullHeap

/-- One TEMPORAL cache of 30 bytes (pointer 1). -/
def smallHeap : Nat → Option cache_t
  | 1 => some (mkCache 30 cache_duration_t.TEMPORAL 10)
  | _ => none

/-- Capacity 100, 10 bytes free, the cache of `smallHeap` registered. -/
def smallPool : cache_storage_t := mkPool 10 [1] [1] smallHeap

/-- One TEMPORAL cache of 95 bytes (pointer 1). -/
def bigHeap : Nat → Option cache_t
  | 1 => some (mkCache 95 cache_duration_t.TEMPORAL 10)
  | _ => none

/-- Capacity 100, 10 bytes free, the 95-byte cache of `bigHeap` registered:
`0 ≤ mspace_left ≤ mspace_total`, but free and registered bytes together
exceed the capacity. -/
def bigPool : cache_storage_t := mkPool 10 [1] [1] bigHeap

/-- The two caches of `twoTemporalHeap` and a third TEMPORAL cache of 7 bytes
(pointer 5). -/
def strayHeap : Nat → Option cache_t
  | 1 => some (mkCache 40 cache_duration_t.TEMPORAL 10)
  | 2 => some (mkCache 50 cache_duration_t.TEMPORAL 20)
  | 5 => some (mkCache 7 cache_duration_t.TEMPORAL 30)
  | _ => none

/-- The pool `twoTemporalPool` with one more cache in the heap (pointer 5)
that is in neither chain. -/
def strayPool : cache_storage_t := mkPool 10 [1, 2] [1, 2] strayHeap

/-- The pool `twoTemporalPool` on a process that is not the I/O node. -/
def otherRankPool : cache_storage_t := { twoTemporalPool with io_node := false }

/-- The 40-byte cache, registered at time 10 and accessed once, at time 15
(`MAX_NUM_CACHE_ACCESS = 2`). -/
def accessedCache : cache_t :=
  { mspace_total := 40, duration := cache_duration_t.TEMPORAL,
    access_history := { time_stamp := [10, 15], count := 1 } }

/-- The 50-byte cache, registered at time 20 and not accessed since
(`MAX_NUM_CACHE_ACCESS = 2`). -/
def registeredCache : cache_t :=
  { mspace_total := 50, duration := cache_duration_t.TEMPORAL,
    access_history := { time_stamp := [20, 0], count := 0 } }

/-- The caches `accessedCache` (pointer 1) and `registeredCache` (pointer 2). -/
def accessedHeap : Nat → Option cache_t
  | 1 => some accessedCache
  | 2 => some registeredCache
  | _ => none

/-- Capacity 100, 10 bytes free, the caches of `accessedHeap` in both
chains. -/
def accessedPool : cache_storage_t := mkPool 10 [1, 2] [1, 2] accessedHeap

/-- A cache just registered at time 1, with `MAX_NUM_CACHE_ACCESS = 2`. -/
def freshCache : cache_t :=
  { mspace_total := 40, duration := cache_duration_t.TEMPORAL,
    access_history := { time_stamp := [1, 0], count := 0 } }

/-- The cache `freshCache` after accesses at times 5 and 10. -/
def wrappedCache : cache_t :=
  { mspace_total := 40, duration := cache_duration_t.TEMPORAL,
    access_history := { time_stamp := [10, 5], count := 2 } }

/-- A cache first accessed at time 0 and accessed once more, at time 100. -/
def slowCache : cache_t :=
  { mspace_total := 40, duration := cache_duration_t.TEMPORAL,
    access_history := { time_stamp := [0, 100], count := 1 } }

/-- A cache first accessed at time 0 and accessed once more, at time 10. -/
def fastCache : cache_t :=
  { mspace_total := 40, duration := cache_duration_t.TEMPORAL,
    access_history := { time_stamp := [0, 10], count := 1 } }

/-- A TEMPORAL cache of the given size, registered at time `registered` and
accessed once since, at time `last` (`MAX_NUM_CACHE_ACCESS = 2`). -/
def mkAccessed (size : Nat) (registered last : Int) : cache_t :=
  { mspace_total := size, duration := cache_duration_t.TEMPORAL,
    access_history := { time_stamp := [registered, last], count := 1 } }

/-- TEMPORAL caches of 40 bytes registered at time 1 (pointer 1) and of 50
bytes registered at time 2 (pointer 2), both last accessed at time 10. -/
def tieHeap : Nat → Option cache_t
  | 1 => some (mkAccessed 40 1 10)
  | 2 => some (mkAccessed 50 2 10)
  | _ => none

/-- Capacity 100, 10 bytes free, the caches of `tieHeap` in the order of
their registration in both chains. -/
def tiePool : cache_storage_t := mkPool 10 [1, 2] [1, 2] tieHeap

/-- TEMPORAL caches of 40 bytes registered at time 3 (pointer 1) and at time 2
(pointer 2), both last accessed at time 5, and of 10 bytes registered at time
1 and last accessed at time 9 (pointer 3). -/
def tieThenLaterHeap : Nat → Option cache_t
  | 1 => some (mkAccessed 40 3 5)
  | 2 => some (mkAccessed 40 2 5)
  | 3 => some (mkAccessed 10 1 9)
  | _ => none

/-- Capacity 100, 10 bytes free, the caches of `tieThenLaterHeap` with the
latest registered first in both chains. -/
def tieThenLaterPool : cache_storage_t := mkPool 10 [1, 2, 3] [1, 2, 3] tieThenLaterHeap

/-- A TEMPORAL cache of 0 bytes last accessed at time 10 (pointer 1) and one
of 50 bytes last accessed at time 20 (pointer 2). -/
def zeroHeap : Nat → Option cache_t
  | 1 => some (mkCache 0 cache_duration_t.TEMPORAL 10)
  | 2 => some (mkCache 50 cache_duration_t.TEMPORAL 20)
  | _ => none

/-- Capacity 100, 20 bytes free, the caches of `zeroHeap` in that order in
both chains. -/
def zeroPool : cache_storage_t := mkPool 20 [1, 2] [1, 2] zeroHeap

/-- Capacity 100, 20 bytes free, the caches of `zeroHeap`: the 50-byte cache
is the chain `cache_head`, the 0-byte cache is the single node of
`cache_list`, as `H5LSregister_cache` leaves it. -/
def listOnlyPool : cache_storage_t := mkPool 20 [1] [2] zeroHeap

/-- One TEMPORAL cache of `2 ^ 53 + 3` bytes (pointer 1), a size that a
`double` does not hold exactly. -/
def hugeHeap : Nat → Option cache_t
  | 1 => some (mkCache (2 ^ 53 + 3) cache_duration_t.TEMPORAL 10)
  | _ => none

/-- Capacity `2 ^ 54`, nothing free, the cache of `hugeHeap` in both chains. -/
def hugePool : cache_storage_t :=
  { scope := "LOCAL", mspace_total := 2 ^ 54, mspace_left := 0, cache_list := [1],
    cache_head := [1], io_node := true,
    replacement_policy := cache_replacement_policy_t.LRU, heap := hugeHeap, trace := [] }

/-- TEMPORAL caches of 40 bytes last accessed at time 10 (pointer 1) and of
10 bytes last accessed at time 20 (pointer 2). -/
def staleHeap : Nat → Option cache_t
  | 1 => some (mkCache 40 cache_duration_t.TEMPORAL 10)
  | 2 => some (mkCache 10 cache_duration_t.TEMPORAL 20)
  | _ => none

/-- Capacity 100, 10 bytes free, the caches of `staleHeap` in both chains. -/
def stalePool : cache_storage_t := mkPool 10 [1, 2] [1, 2] staleHeap

/-- The pool `twoTemporalPool` with a node whose cache is `NULL` at the head
of the registry chain, before the nodes of the two caches. -/
def nullFirstPool : cache_storage_t := mkPool 10 [1, 2] [0, 1, 2] twoTemporalHeap

/-- Capacity and free space `2 ^ 64 - 1`, the 40-byte cache of
`twoTemporalHeap` registered. -/
def wrapPool : cache_storage_t :=
  { scope := "LOCAL", mspace_total := 2 ^ 64 - 1, mspace_left := 2 ^ 64 - 1, cache_list := [1],
    cache_head := [1], io_node := true,
    replacement_policy := cache_replacement_policy_t.LRU, heap := twoTemporalHeap, trace := [] }

/-! ## Lemmas -/

/-! ### Rounding to `double` -/

theorem toDouble_of_lt {n : Nat} (h : n < 2 ^ 53) : toDouble n = n := by
  unfold toDouble
  rw [if_pos h]

theorem le_toDouble_of_le {n : Nat} (h : 2 ^ 53 ≤ n) : 2 ^ 53 ≤ toDouble n := by
  have hn : n ≠ 0 := by
    intro h0
    rw [h0] at h
    exact absurd h (by decide)
  have hk : 53 ≤ Nat.log 2 n := Nat.le_log_of_pow_le (by decide) h
  have hle : 2 ^ Nat.log 2 n ≤ n := Nat.pow_log_le_self 2 hn
  have hsplit : 2 ^ Nat.log 2 n = 2 ^ 52 * 2 ^ (Nat.log 2 n - 52) := by
    rw [← pow_add]
    congr 1
    omega
  have hu : 0 < 2 ^ (Nat.log 2 n - 52) := Nat.pow_pos (by decide)
  have hq : 2 ^ 52 ≤ n / 2 ^ (Nat.log 2 n - 52) := by
    rw [Nat.le_div_iff_mul_le hu, ← hsplit]
    exact hle
  have hbase : 2 ^ 53 ≤ n / 2 ^ (Nat.log 2 n - 52) * 2 ^ (Nat.log 2 n - 52) := by
    have h1 : 2 ^ 52 * 2 ^ (Nat.log 2 n - 52) ≤
        n / 2 ^ (Nat.log 2 n - 52) * 2 ^ (Nat.log 2 n - 52) :=
      Nat.mul_le_mul_right _ hq
    have h2 : 2 ^ 53 ≤ 2 ^ Nat.log 2 n := Nat.pow_le_pow_right (by decide) hk
    rw [← hsplit] at h1
    exact le_trans h2 h1
  have hstep : n / 2 ^ (Nat.log 2 n - 52) * 2 ^ (Nat.log 2 n - 52) ≤
      (n / 2 ^ (Nat.log 2 n - 52) + 1) * 2 ^ (Nat.log 2 n - 52) :=
    Nat.mul_le_mul_right _ (Nat.le_succ _)
  unfold toDouble
  rw [if_neg (Nat.not_lt.mpr h)]
  simp only []
  split_ifs
  · exact hbase
  · exact le_trans hbase hstep
  · exact hbase
  · exact le_trans hbase hstep

theorem toDouble_eq_zero {n : Nat} (h : toDouble n = 0) : n = 0 := by
  by_cases hn : n < 2 ^ 53
  · rw [toDouble_of_lt hn] at h
    exact h
  · have := le_toDouble_of_le (Nat.not_lt.mp hn)
    rw [h] at this
    exact absurd this (by decide)

theorem lt_toDouble_of_lt {m n : Nat} (hm : m < 2 ^ 53) (h : m < n) : m < toDouble n := by
  by_cases hn : n < 2 ^ 53
  · rw [toDouble_of_lt hn]
    exact h
  · exact lt_of_lt_of_le hm (le_toDouble_of_le (Nat.not_lt.mp hn))

/-! ### The summing loop -/

theorem AllLive.head {LS : cache_storage_t} {c : Nat} {rest : List Nat}
    (h : AllLive LS (c :: rest)) : ∃ obj, LS.deref c = some obj := by
  have := h c (List.mem_cons_self c rest)
  exact Option.ne_none_iff_exists'.mp this

theorem AllLive.tail {LS : cache_storage_t} {c : Nat} {rest : List Nat}
    (h : AllLive LS (c :: rest)) : AllLive LS rest :=
  fun p hp => h p (List.mem_cons_of_mem c hp)

theorem sum_temporal_exact (LS : cache_storage_t) (l : List Nat) :
    ∀ (acc tmp : Nat), AllLive LS l → acc + temporal_bytes LS l < 2 ^ 53 →
      ∃ tmp1, sum_temporal LS l acc tmp = some (acc + temporal_bytes LS l, tmp1) := by
  induction l with
  | nil =>
    intro acc tmp _ _
    exact ⟨tmp, by simp [sum_temporal, temporal_bytes]⟩
  | cons c rest ih =>
    intro acc tmp hlive hlt
    obtain ⟨obj, hobj⟩ := hlive.head
    simp only [temporal_bytes, hobj] at hlt ⊢
    simp only [sum_temporal, hobj]
    by_cases hd : obj.duration = cache_duration_t.TEMPORAL
    · simp only [if_pos hd] at hlt ⊢
      have h1 : toDouble obj.mspace_total = obj.mspace_total := toDouble_of_lt (by omega)
      have h2 : toDouble (acc + obj.mspace_total) = acc + obj.mspace_total :=
        toDouble_of_lt (by omega)
      rw [h1, h2]
      obtain ⟨tmp1, h3⟩ := ih (acc + obj.mspace_total) c hlive.tail (by omega)
      exact ⟨tmp1, by rw [h3, Nat.add_assoc]⟩
    · simp only [if_neg hd] at hlt ⊢
      exact ih acc tmp hlive.tail hlt

theorem sum_temporal_tmp (LS : cache_storage_t) (l : List Nat) :
    ∀ (acc tmp m tmp1 : Nat), sum_temporal LS l acc tmp = some (m, tmp1) →
      (m = acc ∧ tmp1 = tmp) ∨ TemporalIfLive LS tmp1 := by
  induction l with
  | nil =>
    intro acc tmp m tmp1 h
    simp only [sum_temporal, Option.some.injEq, Prod.mk.injEq] at h
    exact Or.inl ⟨h.1.symm, h.2.symm⟩
  | cons c rest ih =>
    intro acc tmp m tmp1 h
    simp only [sum_temporal] at h
    cases hc : LS.deref c with
    | none => simp [hc] at h
    | some obj =>
      simp only [hc] at h
      by_cases hd : obj.duration = cache_duration_t.TEMPORAL
      · simp only [if_pos hd] at h
        rcases ih _ _ _ _ h with ⟨-, h2⟩ | h2
        · right
          intro o ho
          rw [h2, hc] at ho
          cases ho
          exact hd
        · exact Or.inr h2
      · simp only [if_neg hd] at h
        exact ih _ _ _ _ h

/-! ### The scan of `cache_list` -/

theorem scan_cache_list_fuel (LS : cache_storage_t) (crp : cache_replacement_policy_t)
    (l : List Nat) : ∀ (fuel tmp stay : Nat), l.length ≤ fuel →
      scan_cache_list LS crp 0 fuel l tmp stay =
        scan_cache_list LS crp 0 l.length l tmp stay := by
  induction l with
  | nil =>
    intro fuel tmp stay _
    cases fuel <;> simp [scan_cache_list]
  | cons c rest ih =>
    intro fuel tmp stay hfuel
    cases fuel with
    | zero => simp at hfuel
    | succ fuel =>
      have hfuel1 : rest.length ≤ fuel := by simpa using hfuel
      simp only [scan_cache_list, List.length_cons, Nat.lt_irrefl, if_false]
      cases LS.deref c with
      | none => rfl
      | some obj =>
        simp only []
        split
        · rfl
        · rw [ih fuel _ _ hfuel1]

theorem scan_cache_list_stuck (LS : cache_storage_t) (crp : cache_replacement_policy_t)
    (mspace c : Nat) (rest : List Nat) (obj : cache_t) (hm : 0 < mspace)
    (hc : LS.deref c = some obj) (hd : obj.duration ≠ cache_duration_t.TEMPORAL) :
    ∀ (fuel tmp stay : Nat),
      scan_cache_list LS crp mspace fuel (c :: rest) tmp stay = ScanResult.timeout := by
  intro fuel
  induction fuel with
  | zero =>
    intro tmp stay
    rfl
  | succ fuel ih =>
    intro tmp stay
    simp only [scan_cache_list, hc, if_neg hd, if_pos hm]
    exact ih _ _

theorem scan_cache_list_temporal (LS : cache_storage_t) (crp : cache_replacement_policy_t)
    (mspace : Nat) : ∀ (fuel : Nat) (l : List Nat) (tmp stay tmp1 stay1 : Nat),
      scan_cache_list LS crp mspace fuel l tmp stay = ScanResult.done tmp1 stay1 →
      TemporalIfLive LS tmp → TemporalIfLive LS stay →
      TemporalIfLive LS tmp1 ∧ TemporalIfLive LS stay1 := by
  intro fuel
  induction fuel with
  | zero =>
    intro l tmp stay tmp1 stay1 h ht hs
    cases l with
    | nil =>
      simp only [scan_cache_list, ScanResult.done.injEq] at h
      rw [← h.1, ← h.2]
      exact ⟨ht, hs⟩
    | cons c rest => simp [scan_cache_list] at h
  | succ fuel ih =>
    intro l tmp stay tmp1 stay1 h ht hs
    cases l with
    | nil =>
      simp only [scan_cache_list, ScanResult.done.injEq] at h
      rw [← h.1, ← h.2]
      exact ⟨ht, hs⟩
    | cons c rest =>
      simp only [scan_cache_list] at h
      cases hc : LS.deref c with
      | none => simp [hc] at h
      | some obj =>
        simp only [hc] at h
        by_cases hd : obj.duration = cache_duration_t.TEMPORAL
        · have hcT : TemporalIfLive LS c := by
            intro o ho
            rw [hc] at ho
            cases ho
            exact hd
          simp only [if_pos hd] at h
          split at h
          · cases h
          · rename_i b hb
            cases b
            · simp only [Bool.false_eq_true, if_false] at h
              split_ifs at h
              · exact ih _ _ _ _ _ h ht hs
              · exact ih _ _ _ _ _ h ht hs
            · simp only [if_true] at h
              split_ifs at h
              · exact ih _ _ _ _ _ h hcT hcT
              · exact ih _ _ _ _ _ h hcT hcT
        · simp only [if_neg hd, Bool.false_eq_true, if_false] at h
          split_ifs at h
          · exact ih _ _ _ _ _ h ht hs
          · exact ih _ _ _ _ _ h ht hs

/-! ### `H5LSremove_cache` -/

theorem deref_ne_zero {LS : cache_storage_t} {p : Nat} {obj : cache_t}
    (hp : LS.deref p = some obj) : p ≠ 0 := by
  intro h0
  simp [cache_storage_t.deref, h0] at hp

theorem heap_of_deref {LS : cache_storage_t} {p : Nat} {obj : cache_t}
    (hp : LS.deref p = some obj) : LS.heap p = some obj := by
  simpa [cache_storage_t.deref, deref_ne_zero hp] using hp

theorem deref_of_heap_eq {LS LS1 : cache_storage_t} (h : LS1.heap = LS.heap) (p : Nat) :
    LS1.deref p = LS.deref p := by
  simp [cache_storage_t.deref, h]

theorem remove_cache_live (LS : cache_storage_t) (p : Nat) (obj : cache_t)
    (hp : LS.deref p = some obj) : ∃ LS1, H5LSremove_cache LS p = Outcome.ret 0 LS1 := by
  have hp0 : p ≠ 0 := deref_ne_zero hp
  have hheap := heap_of_deref hp
  unfold H5LSremove_cache
  simp only [if_pos hp0]
  split
  · split
    · split
      · rename_i hn
        split at hn <;> simp [cache_storage_t.deref, hp0, hheap] at hn
      · exact ⟨_, rfl⟩
    · exact ⟨_, rfl⟩
  · exact ⟨_, rfl⟩

theorem remove_cache_frame (LS : cache_storage_t) (p : Nat) :
    (H5LSremove_cache LS p).state.cache_list = LS.cache_list ∧
    (H5LSremove_cache LS p).state.cache_head = LS.cache_head ∧
    (H5LSremove_cache LS p).state.mspace_total = LS.mspace_total ∧
    (H5LSremove_cache LS p).state.replacement_policy = LS.replacement_policy ∧
    (H5LSremove_cache LS p).state.scope = LS.scope ∧
    (H5LSremove_cache LS p).state.io_node = LS.io_node := by
  unfold H5LSremove_cache
  simp only []
  split_ifs <;> (try split) <;> (try split_ifs) <;> (try split) <;>
    simp [Outcome.state]

theorem remove_cache_effect (LS : cache_storage_t) (p : Nat) :
    ((H5LSremove_cache LS p).state.heap = LS.heap ∧
      (H5LSremove_cache LS p).state.mspace_left = LS.mspace_left) ∨
    (p ≠ 0 ∧ p ∈ LS.cache_head ∧ ∃ obj, LS.heap p = some obj ∧
      H5LSremove_cache LS p = Outcome.ret 0 (H5LSremove_cache LS p).state ∧
      (H5LSremove_cache LS p).state.heap = Function.update LS.heap p none ∧
      (H5LSremove_cache LS p).state.mspace_left =
        (LS.mspace_left + obj.mspace_total) % 2 ^ 64) := by
  unfold H5LSremove_cache
  simp only []
  by_cases hp0 : p = 0
  · left
    simp [hp0, Outcome.state]
  · rw [if_pos hp0]
    split
    · rename_i c rest hdrop
      have hmem : c ∈ LS.cache_head := by
        have hsuf := List.dropWhile_suffix (fun c => c != 0 && c != p) (l := LS.cache_head)
        have : c ∈ List.dropWhile (fun c => c != 0 && c != p) LS.cache_head := by
          split_ifs at hdrop <;> simp at hdrop <;> rw [hdrop] <;> exact List.mem_cons_self _ _
        exact hsuf.subset this
      by_cases hc : (c != 0 && c == p) = true
      · rw [if_pos hc]
        have hcp : c = p := by
          simp at hc
          exact hc.2
        subst hcp
        split
        · left
          split_ifs <;> simp [Outcome.state]
        · rename_i obj hobj
          right
          refine ⟨hp0, hmem, obj, ?_, ?_, ?_, ?_⟩
          · split_ifs at hobj <;> simpa [cache_storage_t.deref, hp0] using hobj
          · rfl
          · split_ifs <;> simp [Outcome.state]
          · split_ifs <;> simp [Outcome.state]
      · rw [if_neg hc]
        left
        split_ifs <;> simp [Outcome.state]
    · left
      split_ifs <;> simp [Outcome.state]

theorem remove_cache_trace (LS : cache_storage_t) (p : Nat) :
    ∃ evs, (H5LSremove_cache LS p).state.trace = LS.trace ++ evs ∧
      ∀ q, Event.remove_cache q ∈ evs → q = p := by
  unfold H5LSremove_cache
  simp only []
  by_cases hp0 : p = 0
  · exact ⟨[Event.remove_cache p], by simp [hp0, Outcome.state], by simp⟩
  · rw [if_pos hp0]
    by_cases hio : (LS.io_node && LS.scope != "GLOBAL") = true
    · refine ⟨[Event.remove_cache p, Event.removeCacheFolder p], ?_, by simp⟩
      rw [if_pos hio]
      split
      · split_ifs
        · split <;> simp [Outcome.state]
        · simp [Outcome.state]
      · simp [Outcome.state]
    · refine ⟨[Event.remove_cache p], ?_, by simp⟩
      rw [if_neg hio]
      split
      · split_ifs
        · split <;> simp [Outcome.state]
        · simp [Outcome.state]
      · simp [Outcome.state]

/-- Removing any cache can only shrink the set of readable caches. -/
theorem remove_cache_deref (LS : cache_storage_t) (p q : Nat) (obj : cache_t)
    (h : (H5LSremove_cache LS p).state.deref q = some obj) : LS.deref q = some obj := by
  rcases remove_cache_effect LS p with ⟨hh, -⟩ | ⟨-, -, -, -, -, hh, -⟩
  · rw [deref_of_heap_eq hh] at h
    exact h
  · unfold cache_storage_t.deref at h ⊢
    rw [hh] at h
    by_cases hq0 : q = 0
    · simp [hq0] at h
    · rw [if_neg hq0] at h ⊢
      by_cases hqp : q = p
      · subst hqp
        simp at h
      · rwa [Function.update_noteq hqp] at h

theorem dropWhile_walk_reaches (p : Nat) (l : List Nat) (hreg : p ∈ l)
    (hpre : 0 ∉ l.takeWhile (fun c => c != p)) :
    ∃ rest, l.dropWhile (fun c => c != 0 && c != p) = p :: rest := by
  induction l with
  | nil => simp at hreg
  | cons c rest ih =>
    by_cases hcp : c = p
    · subst hcp
      exact ⟨rest, by simp [List.dropWhile]⟩
    · have htake : (c :: rest).takeWhile (fun c => c != p) =
          c :: rest.takeWhile (fun c => c != p) := by
        rw [List.takeWhile_cons_of_pos (by simp [hcp])]
      rw [htake] at hpre
      have hc0 : c ≠ 0 := fun h => hpre (h ▸ List.mem_cons_self _ _)
      have hreg1 : p ∈ rest := by
        rcases List.mem_cons.mp hreg with h | h
        · exact absurd h.symm hcp
        · exact h
      obtain ⟨r, hr⟩ := ih hreg1 (fun h => hpre (List.mem_cons_of_mem _ h))
      refine ⟨r, ?_⟩
      rw [List.dropWhile_cons_of_pos (by simp [hc0, hcp])]
      exact hr

theorem dropWhile_walk_stops (p : Nat) (l : List Nat)
    (hpre : 0 ∈ l.takeWhile (fun c => c != p)) :
    ∃ rest, l.dropWhile (fun c => c != 0 && c != p) = 0 :: rest := by
  induction l with
  | nil => simp at hpre
  | cons c rest ih =>
    by_cases hcp : c = p
    · rw [List.takeWhile_cons_of_neg (by simp [hcp])] at hpre
      simp at hpre
    · rw [List.takeWhile_cons_of_pos (by simp [hcp])] at hpre
      by_cases hc0 : c = 0
      · subst hc0
        exact ⟨rest, by simp [List.dropWhile]⟩
      · have hpre1 : 0 ∈ rest.takeWhile (fun c => c != p) := by
          rcases List.mem_cons.mp hpre with h | h
          · exact absurd h.symm hc0
          · exact h
        obtain ⟨r, hr⟩ := ih hpre1
        refine ⟨r, ?_⟩
        rw [List.dropWhile_cons_of_pos (by simp [hc0, hcp])]
        exact hr

/-! ### Only TEMPORAL caches are removed -/

theorem OnlyTemporalRemoved.refl (LS : cache_storage_t) : OnlyTemporalRemoved LS LS :=
  ⟨rfl, rfl, fun _ => Or.inl rfl, [], by simp, by simp⟩

theorem OnlyTemporalRemoved.step {LS LSa : cache_storage_t} (h : OnlyTemporalRemoved LS LSa)
    (p : Nat) (obj : cache_t) (hp : LSa.deref p = some obj)
    (hd : obj.duration = cache_duration_t.TEMPORAL) :
    OnlyTemporalRemoved LS (H5LSremove_cache LSa p).state := by
  obtain ⟨hhead, hlist, hheap, evs, htrace, hevs⟩ := h
  obtain ⟨hlist1, hhead1, -, -, -, -⟩ := remove_cache_frame LSa p
  have hpheap : LS.heap p = some obj := by
    have h1 := heap_of_deref hp
    rcases hheap p with h2 | ⟨h2, -⟩
    · rw [← h2]
      exact h1
    · rw [h1] at h2
      cases h2
  refine ⟨hhead1.trans hhead, hlist1.trans hlist, ?_, ?_⟩
  · intro q
    rcases remove_cache_effect LSa p with ⟨hh, -⟩ | ⟨-, -, -, -, -, hh, -⟩
    · rw [hh]
      exact hheap q
    · rw [hh]
      by_cases hqp : q = p
      · subst hqp
        right
        exact ⟨by simp, obj, hpheap, hd⟩
      · rw [Function.update_noteq hqp]
        exact hheap q
  · obtain ⟨evs1, htrace1, hevs1⟩ := remove_cache_trace LSa p
    refine ⟨evs ++ evs1, ?_, ?_⟩
    · rw [htrace1, htrace, List.append_assoc]
    · intro q hq
      rcases List.mem_append.mp hq with hq | hq
      · exact hevs q hq
      · rw [hevs1 q hq]
        exact ⟨obj, hpheap, hd⟩

theorem evict_loop_only_temporal (LS : cache_storage_t) (size : Nat)
    (crp : cache_replacement_policy_t) : ∀ (fuel : Nat) (LSa : cache_storage_t)
      (mspace tmp stay : Nat), OnlyTemporalRemoved LS LSa →
      TemporalIfLive LSa tmp → TemporalIfLive LSa stay →
      OnlyTemporalRemoved LS (evict_loop size crp fuel LSa mspace tmp stay).state := by
  intro fuel
  induction fuel with
  | zero =>
    intro LSa mspace tmp stay h _ _
    exact h
  | succ fuel ih =>
    intro LSa mspace tmp stay h ht hs
    rw [evict_loop]
    split_ifs
    · split
      · exact h
      · exact h
      · rename_i tmp1 stay1 hscan
        obtain ⟨ht1, hs1⟩ := scan_cache_list_temporal LSa crp mspace fuel _ _ _ _ _ hscan ht hs
        split
        · exact h
        · rename_i obj hobj
          have hstep := h.step tmp1 obj hobj (ht1 obj hobj)
          have hs2 : TemporalIfLive (H5LSremove_cache LSa tmp1).state stay1 :=
            fun o ho => hs1 o (remove_cache_deref LSa tmp1 stay1 o ho)
          split
          · rename_i r LS1 hrem
            rw [hrem] at hstep hs2
            exact ih LS1 _ stay1 stay1 hstep hs2 hs2
          · rename_i o hne
            exact hstep
    · exact h

theorem evict_loop_state_of_not_lt (size : Nat) (crp : cache_replacement_policy_t)
    (fuel : Nat) (LS : cache_storage_t) (mspace tmp stay : Nat)
    (h : ¬ mspace < toDouble size) :
    (evict_loop size crp fuel LS mspace tmp stay).state = LS := by
  cases fuel with
  | zero => rfl
  | succ fuel =>
    rw [evict_loop, if_neg h]
    rfl

theorem claim_space_only_temporal (fuel : Nat) (LS : cache_storage_t) (size : Nat)
    (type : cache_claim_t) (crp : cache_replacement_policy_t) (tmp0 : Nat) :
    OnlyTemporalRemoved LS (H5LSclaim_space fuel LS size type crp tmp0).state := by
  unfold H5LSclaim_space
  split_ifs with h1 h2 h3
  · exact OnlyTemporalRemoved.refl LS
  · exact ⟨rfl, rfl, fun _ => Or.inl rfl, [], by simp [Outcome.state], by simp⟩
  · exact OnlyTemporalRemoved.refl LS
  · split
    · exact OnlyTemporalRemoved.refl LS
    · rename_i mspace tmp hsum
      split_ifs with h4
      · exact OnlyTemporalRemoved.refl LS
      · rcases sum_temporal_tmp LS _ _ _ _ _ hsum with ⟨hm, -⟩ | ht
        · rw [hm] at h4
          rw [evict_loop_state_of_not_lt size crp fuel LS 0 tmp tmp h4]
          exact OnlyTemporalRemoved.refl LS
        · exact evict_loop_only_temporal LS size crp fuel LS 0 tmp tmp
            (OnlyTemporalRemoved.refl LS) ht ht

/-! ### Consistent accounting is preserved -/

theorem sum_filterMap_update (f : Nat → Option cache_t) (p : Nat) (obj : cache_t)
    (hf : f p = some obj) (l : List Nat) (hnd : l.Nodup) :
    ((l.filterMap f).map cache_t.mspace_total).sum =
      (if p ∈ l then obj.mspace_total else 0) +
        ((l.filterMap (Function.update f p none)).map cache_t.mspace_total).sum := by
  induction l with
  | nil => simp
  | cons c rest ih =>
    obtain ⟨hc, hrest⟩ := List.nodup_cons.mp hnd
    have ih1 := ih hrest
    by_cases hcp : c = p
    · subst hcp
      rw [if_neg hc] at ih1
      simp only [List.filterMap_cons, hf, Function.update_same, List.map_cons, List.sum_cons,
        List.mem_cons, true_or, if_true]
      omega
    · have hpc : ¬ p = c := fun h => hcp h.symm
      simp only [List.filterMap_cons, Function.update_noteq hcp, List.mem_cons, hpc, false_or]
      cases hfc : f c with
      | none =>
        simp only []
        exact ih1
      | some o =>
        simp only [List.map_cons, List.sum_cons]
        omega

theorem remove_cache_consistent (LS : cache_storage_t) (p : Nat) (h : CapacityConsistent LS) :
    CapacityConsistent (H5LSremove_cache LS p).state := by
  obtain ⟨hsum, htot⟩ := h
  obtain ⟨-, hhead, htotal, -, -, -⟩ := remove_cache_frame LS p
  rcases remove_cache_effect LS p with ⟨hheap, hleft⟩ | ⟨hp0, hmem, obj, hobj, -, hheap, hleft⟩
  · have hderef : (H5LSremove_cache LS p).state.deref = LS.deref :=
      funext (deref_of_heap_eq hheap)
    unfold CapacityConsistent registered_bytes
    rw [hhead, htotal, hleft, hderef]
    exact ⟨hsum, htot⟩
  · have hderef : (H5LSremove_cache LS p).state.deref = Function.update LS.deref p none := by
      funext q
      by_cases hqp : q = p
      · subst hqp
        simp [cache_storage_t.deref, hheap]
      · rw [Function.update_noteq hqp]
        simp [cache_storage_t.deref, hheap, Function.update_noteq hqp]
    have hd : LS.deref p = some obj := by
      simp [cache_storage_t.deref, hp0, hobj]
    have hs := sum_filterMap_update LS.deref p obj hd LS.cache_head.dedup
      (List.nodup_dedup _)
    rw [if_pos (List.mem_dedup.mpr hmem)] at hs
    unfold registered_bytes at hsum
    unfold CapacityConsistent registered_bytes
    rw [hhead, htotal, hleft, hderef]
    have hlt : LS.mspace_left + obj.mspace_total < 2 ^ 64 := by omega
    rw [Nat.mod_eq_of_lt hlt]
    exact ⟨by omega, htot⟩

theorem evict_loop_consistent (size : Nat) (crp : cache_replacement_policy_t) :
    ∀ (fuel : Nat) (LS : cache_storage_t) (mspace tmp stay : Nat), CapacityConsistent LS →
      CapacityConsistent (evict_loop size crp fuel LS mspace tmp stay).state := by
  intro fuel
  induction fuel with
  | zero =>
    intro LS mspace tmp stay h
    exact h
  | succ fuel ih =>
    intro LS mspace tmp stay h
    rw [evict_loop]
    split_ifs
    · split
      · exact h
      · exact h
      · rename_i tmp1 stay1 hscan
        split
        · exact h
        · have hstep := remove_cache_consistent LS tmp1 h
          split
          · rename_i r LS1 hrem
            rw [hrem] at hstep
            exact ih LS1 _ stay1 stay1 hstep
          · exact hstep
    · exact h

theorem claim_space_consistent (fuel : Nat) (LS : cache_storage_t) (size : Nat)
    (type : cache_claim_t) (crp : cache_replacement_policy_t) (tmp0 : Nat)
    (h : CapacityConsistent LS) :
    CapacityConsistent (H5LSclaim_space fuel LS size type crp tmp0).state := by
  unfold H5LSclaim_space
  split_ifs with h1 h2 h3
  · exact h
  · obtain ⟨hsum, htot⟩ := h
    refine ⟨?_, htot⟩
    have : LS.mspace_left - size + registered_bytes LS ≤ LS.mspace_total := by omega
    exact this
  · exact h
  · split
    · exact h
    · split_ifs
      · exact h
      · exact evict_loop_consistent size crp fuel LS 0 _ _ h

theorem claim_states_consistent (calls : List ClaimCall) :
    ∀ LS, CapacityConsistent LS → ∀ LS1 ∈ claim_states calls LS, CapacityConsistent LS1 := by
  induction calls with
  | nil =>
    intro LS _ LS1 h1
    simp [claim_states] at h1
  | cons c cs ih =>
    intro LS h LS1 h1
    have hc := claim_space_consistent c.fuel LS c.size c.type c.crp c.tmp0 h
    simp only [claim_states] at h1
    split at h1
    · rename_i r LS2 heq
      rw [heq] at hc
      rcases List.mem_cons.mp h1 with h2 | h2
      · rw [h2]
        exact hc
      · exact ih LS2 hc LS1 h2
    · rw [List.mem_singleton] at h1
      rw [h1]
      exact hc

/-! ### `H5LSremove_cache_all` -/

theorem remove_cache_all_loop_stuck (removeCacheFolder : Nat → Int) (LS : cache_storage_t)
    (hio : LS.io_node = false) (before : List Nat) (c : Nat) (rest : List Nat) (ret_value : Int) :
    ∀ fuel, remove_cache_all_loop removeCacheFolder fuel LS before (c :: rest) ret_value =
      Outcome.timeout LS := by
  intro fuel
  induction fuel with
  | zero => rfl
  | succ fuel ih =>
    rw [remove_cache_all_loop, hio]
    exact ih

/-! ### `H5LSrecord_cache_access` -/

theorem record_cache_access_eq (MAX : Nat) (now : Int) (cache : cache_t)
    (hMAX : 0 < MAX) (hlen : cache.access_history.time_stamp.length = MAX)
    (hcount : 0 ≤ cache.access_history.count)
    (hint : cache.access_history.count + 1 < 2 ^ 31) :
    H5LSrecord_cache_access MAX now cache =
      some (SUCCEED,
        { cache with
          access_history :=
            { time_stamp := cache.access_history.time_stamp.set
                ((cache.access_history.count + 1) % (MAX : Int)).toNat now
              count := cache.access_history.count + 1 } }) := by
  have hM : (0 : Int) < (MAX : Int) := by exact_mod_cast hMAX
  have hM0 : MAX ≠ 0 := Nat.pos_iff_ne_zero.mp hMAX
  have hnn : 0 ≤ (cache.access_history.count + 1) % (MAX : Int) :=
    Int.emod_nonneg _ (ne_of_gt hM)
  have hlt : (cache.access_history.count + 1) % (MAX : Int) < (MAX : Int) :=
    Int.emod_lt_of_pos _ hM
  have hidx : ((cache.access_history.count + 1) % (MAX : Int)).toNat <
      cache.access_history.time_stamp.length := by
    rw [hlen, Int.toNat_lt hnn]
    exact hlt
  unfold H5LSrecord_cache_access
  simp only []
  rw [if_neg (not_le.mpr hint)]
  by_cases hsmall : cache.access_history.count + 1 < (MAX : Int)
  · have hmod : (cache.access_history.count + 1) % (MAX : Int) =
        cache.access_history.count + 1 := Int.emod_eq_of_lt (by omega) hsmall
    rw [hmod] at hnn hidx ⊢
    simp only [if_pos hsmall]
    rw [if_pos ⟨hnn, hidx⟩]
  · have hmod : (cache.access_history.count + 1).tmod (MAX : Int) =
        (cache.access_history.count + 1) % (MAX : Int) :=
      Int.tmod_eq_emod (by omega) (le_of_lt hM)
    simp only [if_neg hsmall, if_neg hM0, hmod]
    rw [if_pos ⟨hnn, hidx⟩]

/-! ### The victim of a scan -/

theorem compare_cache_eq_key (a b : cache_t) (crp : cache_replacement_policy_t) :
    H5LScompare_cache a b crp =
      match eviction_key crp a, eviction_key crp b with
      | some ka, some kb => some (decide (ka < kb))
      | _, _ => none := by
  cases crp <;> simp only [H5LScompare_cache, eviction_key]

theorem compare_cache_some {a b : cache_t} {crp : cache_replacement_policy_t} {r : Bool}
    (h : H5LScompare_cache a b crp = some r) :
    ∃ ka kb, eviction_key crp a = some ka ∧ eviction_key crp b = some kb ∧
      r = decide (ka < kb) := by
  rw [compare_cache_eq_key] at h
  split at h
  · rename_i ka kb hka hkb
    exact ⟨ka, kb, hka, hkb, (Option.some.inj h).symm⟩
  · cases h

/-- The scan ends on a cache whose key is not above the key of the initial
candidate, and no TEMPORAL cache of the scanned chain is preferred to it. -/
theorem scan_cache_list_minimal (LS : cache_storage_t) (crp : cache_replacement_policy_t)
    (mspace : Nat) : ∀ (fuel : Nat) (l : List Nat) (tmp stay v stay1 : Nat),
      scan_cache_list LS crp mspace fuel l tmp stay = ScanResult.done v stay1 →
      (∀ ot ov kt, LS.deref tmp = some ot → LS.deref v = some ov →
        eviction_key crp ot = some kt → ∃ kv, eviction_key crp ov = some kv ∧ kv ≤ kt) ∧
      (∀ e ∈ l, ∀ oe ov, LS.deref e = some oe → oe.duration = cache_duration_t.TEMPORAL →
        LS.deref v = some ov → H5LScompare_cache oe ov crp = some false) := by
  intro fuel
  induction fuel with
  | zero =>
    intro l tmp stay v stay1 h
    cases l with
    | nil =>
      simp only [scan_cache_list, ScanResult.done.injEq] at h
      obtain ⟨rfl, -⟩ := h
      refine ⟨?_, by simp⟩
      intro ot ov kt hot hov hkt
      rw [hot] at hov
      cases hov
      exact ⟨kt, hkt, le_refl _⟩
    | cons c rest => simp [scan_cache_list] at h
  | succ fuel ih =>
    intro l tmp stay v stay1 h
    cases l with
    | nil =>
      simp only [scan_cache_list, ScanResult.done.injEq] at h
      obtain ⟨rfl, -⟩ := h
      refine ⟨?_, by simp⟩
      intro ot ov kt hot hov hkt
      rw [hot] at hov
      cases hov
      exact ⟨kt, hkt, le_refl _⟩
    | cons c rest =>
      simp only [scan_cache_list] at h
      cases hc : LS.deref c with
      | none => simp [hc] at h
      | some oc =>
        simp only [hc] at h
        by_cases hd : oc.duration = cache_duration_t.TEMPORAL
        · simp only [if_pos hd] at h
          rcases Option.eq_none_or_eq_some (LS.deref tmp) with ht | ⟨ot, ht⟩
          · simp [ht] at h
          · simp only [ht] at h
            cases hcmp : H5LScompare_cache oc ot crp with
            | none => simp [hcmp] at h
            | some b =>
              simp only [hcmp] at h
              obtain ⟨kc, kt, hkc, hkt, hb⟩ := compare_cache_some hcmp
              cases b
              · -- the candidate stays
                have hle : kt ≤ kc := by
                  have : ¬ kc < kt := by
                    intro hlt
                    rw [decide_eq_true hlt] at hb
                    cases hb
                  exact not_lt.mp this
                simp only [Bool.false_eq_true, if_false] at h
                have hrec : ∀ l1, scan_cache_list LS crp mspace fuel l1 tmp stay =
                    ScanResult.done v stay1 → (l1 = c :: rest ∨ l1 = rest) →
                    (∀ ot ov kt, LS.deref tmp = some ot → LS.deref v = some ov →
                      eviction_key crp ot = some kt →
                      ∃ kv, eviction_key crp ov = some kv ∧ kv ≤ kt) ∧
                    (∀ e ∈ c :: rest, ∀ oe ov, LS.deref e = some oe →
                      oe.duration = cache_duration_t.TEMPORAL →
                      LS.deref v = some ov → H5LScompare_cache oe ov crp = some false) := by
                  intro l1 h1 hl1
                  obtain ⟨ih1, ih2⟩ := ih l1 tmp stay v stay1 h1
                  refine ⟨ih1, ?_⟩
                  intro e he oe ov hoe hde hov
                  rcases hl1 with rfl | rfl
                  · exact ih2 e he oe ov hoe hde hov
                  · rcases List.mem_cons.mp he with hec | he
                    · rw [hec, hc] at hoe
                      rw [← Option.some.inj hoe]
                      obtain ⟨kv, hkv, hkvle⟩ := ih1 ot ov kt ht hov hkt
                      rw [compare_cache_eq_key, hkc, hkv]
                      simp only [Option.some.injEq, decide_eq_false_iff_not, not_lt]
                      exact le_trans hkvle hle
                    · exact ih2 e he oe ov hoe hde hov
                split_ifs at h
                · exact hrec _ h (Or.inl rfl)
                · exact hrec _ h (Or.inr rfl)
              · -- the node's cache becomes the candidate
                have hlt : kc < kt := of_decide_eq_true hb.symm
                simp only [if_true] at h
                have hrec : ∀ l1, scan_cache_list LS crp mspace fuel l1 c c =
                    ScanResult.done v stay1 → (l1 = c :: rest ∨ l1 = rest) →
                    (∀ ot ov kt, LS.deref tmp = some ot → LS.deref v = some ov →
                      eviction_key crp ot = some kt →
                      ∃ kv, eviction_key crp ov = some kv ∧ kv ≤ kt) ∧
                    (∀ e ∈ c :: rest, ∀ oe ov, LS.deref e = some oe →
                      oe.duration = cache_duration_t.TEMPORAL →
                      LS.deref v = some ov → H5LScompare_cache oe ov crp = some false) := by
                  intro l1 h1 hl1
                  obtain ⟨ih1, ih2⟩ := ih l1 c c v stay1 h1
                  constructor
                  · intro ot1 ov kt1 hot1 hov hkt1
                    rw [ht] at hot1
                    cases hot1
                    rw [hkt] at hkt1
                    cases hkt1
                    obtain ⟨kv, hkv, hkvle⟩ := ih1 oc ov kc hc hov hkc
                    exact ⟨kv, hkv, le_trans hkvle (le_of_lt hlt)⟩
                  · intro e he oe ov hoe hde hov
                    rcases hl1 with rfl | rfl
                    · exact ih2 e he oe ov hoe hde hov
                    · rcases List.mem_cons.mp he with hec | he
                      · rw [hec, hc] at hoe
                        rw [← Option.some.inj hoe]
                        obtain ⟨kv, hkv, hkvle⟩ := ih1 oc ov kc hc hov hkc
                        rw [compare_cache_eq_key, hkc, hkv]
                        simp only [Option.some.injEq, decide_eq_false_iff_not, not_lt]
                        exact hkvle
                      · exact ih2 e he oe ov hoe hde hov
                split_ifs at h
                · exact hrec _ h (Or.inl rfl)
                · exact hrec _ h (Or.inr rfl)
        · simp only [if_neg hd, Bool.false_eq_true, if_false] at h
          have hrec : ∀ l1, scan_cache_list LS crp mspace fuel l1 tmp stay =
              ScanResult.done v stay1 → (l1 = c :: rest ∨ l1 = rest) →
              (∀ ot ov kt, LS.deref tmp = some ot → LS.deref v = some ov →
                eviction_key crp ot = some kt →
                ∃ kv, eviction_key crp ov = some kv ∧ kv ≤ kt) ∧
              (∀ e ∈ c :: rest, ∀ oe ov, LS.deref e = some oe →
                oe.duration = cache_duration_t.TEMPORAL →
                LS.deref v = some ov → H5LScompare_cache oe ov crp = some false) := by
            intro l1 h1 hl1
            obtain ⟨ih1, ih2⟩ := ih l1 tmp stay v stay1 h1
            refine ⟨ih1, ?_⟩
            intro e he oe ov hoe hde hov
            rcases hl1 with rfl | rfl
            · exact ih2 e he oe ov hoe hde hov
            · rcases List.mem_cons.mp he with hec | he
              · rw [hec, hc] at hoe
                rw [← Option.some.inj hoe] at hde
                exact absurd hde hd
              · exact ih2 e he oe ov hoe hde hov
          split_ifs at h
          · exact hrec _ h (Or.inl rfl)
          · exact hrec _ h (Or.inr rfl)

/-- The scan ends on the initial candidate or on a TEMPORAL cache of the
chain. -/
theorem scan_cache_list_mem (LS : cache_storage_t) (crp : cache_replacement_policy_t)
    (mspace : Nat) : ∀ (fuel : Nat) (l : List Nat) (tmp stay v stay1 : Nat),
      scan_cache_list LS crp mspace fuel l tmp stay = ScanResult.done v stay1 →
      v = tmp ∨ (v ∈ l ∧ TemporalIfLive LS v) := by
  intro fuel
  induction fuel with
  | zero =>
    intro l tmp stay v stay1 h
    cases l with
    | nil =>
      simp only [scan_cache_list, ScanResult.done.injEq] at h
      exact Or.inl h.1.symm
    | cons c rest => simp [scan_cache_list] at h
  | succ fuel ih =>
    intro l tmp stay v stay1 h
    cases l with
    | nil =>
      simp only [scan_cache_list, ScanResult.done.injEq] at h
      exact Or.inl h.1.symm
    | cons c rest =>
      simp only [scan_cache_list] at h
      have hstep : ∀ l1 t s, scan_cache_list LS crp mspace fuel l1 t s =
          ScanResult.done v stay1 → (l1 = c :: rest ∨ l1 = rest) →
          (t = tmp ∨ (t = c ∧ TemporalIfLive LS c)) →
          v = tmp ∨ (v ∈ c :: rest ∧ TemporalIfLive LS v) := by
        intro l1 t s h1 hl1 ht
        have hv := ih l1 t s v stay1 h1
        have hsub : v ∈ l1 → v ∈ c :: rest := by
          intro hm
          rcases hl1 with rfl | rfl
          · exact hm
          · exact List.mem_cons_of_mem _ hm
        rcases hv with hv | hv
        · rcases ht with ht | ht
          · exact Or.inl (hv.trans ht)
          · refine Or.inr ⟨?_, ?_⟩
            · rw [hv, ht.1]
              exact List.mem_cons_self _ _
            · rw [hv, ht.1]
              exact ht.2
        · exact Or.inr ⟨hsub hv.1, hv.2⟩
      rcases Option.eq_none_or_eq_some (LS.deref c) with hc | ⟨oc, hc⟩
      · simp [hc] at h
      · simp only [hc] at h
        by_cases hd : oc.duration = cache_duration_t.TEMPORAL
        · have hcT : TemporalIfLive LS c := by
            intro o ho
            rw [hc] at ho
            rw [← Option.some.inj ho]
            exact hd
          simp only [if_pos hd] at h
          split at h
          · cases h
          · rename_i b hb
            cases b
            · simp only [Bool.false_eq_true, if_false] at h
              split_ifs at h
              · exact hstep _ _ _ h (Or.inl rfl) (Or.inl rfl)
              · exact hstep _ _ _ h (Or.inr rfl) (Or.inl rfl)
            · simp only [if_true] at h
              split_ifs at h
              · exact hstep _ _ _ h (Or.inl rfl) (Or.inr ⟨rfl, hcT⟩)
              · exact hstep _ _ _ h (Or.inr rfl) (Or.inr ⟨rfl, hcT⟩)
        · simp only [if_neg hd, Bool.false_eq_true, if_false] at h
          split_ifs at h
          · exact hstep _ _ _ h (Or.inl rfl) (Or.inl rfl)
          · exact hstep _ _ _ h (Or.inr rfl) (Or.inl rfl)

/-- When no TEMPORAL cache of the chain is preferred to the initial candidate,
the scan ends on the initial candidate. -/
theorem scan_cache_list_keeps (LS : cache_storage_t) (crp : cache_replacement_policy_t)
    (mspace : Nat) : ∀ (fuel : Nat) (l : List Nat) (tmp stay v stay1 : Nat),
      scan_cache_list LS crp mspace fuel l tmp stay = ScanResult.done v stay1 →
      (∀ e ∈ l, ∀ oe ot, LS.deref e = some oe → oe.duration = cache_duration_t.TEMPORAL →
        LS.deref tmp = some ot → H5LScompare_cache oe ot crp ≠ some true) →
      v = tmp := by
  intro fuel
  induction fuel with
  | zero =>
    intro l tmp stay v stay1 h _
    cases l with
    | nil =>
      simp only [scan_cache_list, ScanResult.done.injEq] at h
      exact h.1.symm
    | cons c rest => simp [scan_cache_list] at h
  | succ fuel ih =>
    intro l tmp stay v stay1 h hno
    cases l with
    | nil =>
      simp only [scan_cache_list, ScanResult.done.injEq] at h
      exact h.1.symm
    | cons c rest =>
      simp only [scan_cache_list] at h
      have hrest : ∀ e ∈ rest, ∀ oe ot, LS.deref e = some oe →
          oe.duration = cache_duration_t.TEMPORAL →
          LS.deref tmp = some ot → H5LScompare_cache oe ot crp ≠ some true :=
        fun e he => hno e (List.mem_cons_of_mem _ he)
      rcases Option.eq_none_or_eq_some (LS.deref c) with hc | ⟨oc, hc⟩
      · simp [hc] at h
      · simp only [hc] at h
        by_cases hd : oc.duration = cache_duration_t.TEMPORAL
        · simp only [if_pos hd] at h
          rcases Option.eq_none_or_eq_some (LS.deref tmp) with ht | ⟨ot, ht⟩
          · simp [ht] at h
          · simp only [ht] at h
            rcases Option.eq_none_or_eq_some (H5LScompare_cache oc ot crp) with hcmp | ⟨b, hcmp⟩
            · simp [hcmp] at h
            · simp only [hcmp] at h
              cases b
              · simp only [Bool.false_eq_true, if_false] at h
                split_ifs at h
                · exact ih _ _ _ _ _ h hno
                · exact ih _ _ _ _ _ h hrest
              · exact absurd hcmp (hno c (List.mem_cons_self _ _) oc ot hc hd ht)
        · simp only [if_neg hd, Bool.false_eq_true, if_false] at h
          split_ifs at h
          · exact ih _ _ _ _ _ h hno
          · exact ih _ _ _ _ _ h hrest

/-! ### Sizes that a `double` rounds -/

theorem toDouble_rounds_up : toDouble (2 ^ 53 + 3) = 2 ^ 53 + 4 := by
  have hlog : Nat.log 2 (2 ^ 53 + 3) = 53 :=
    (Nat.log_eq_iff (Or.inl (by decide))).mpr ⟨by norm_num, by norm_num⟩
  unfold toDouble
  rw [if_neg (by norm_num), hlog]
  norm_num

theorem toDouble_exact_even : toDouble (2 ^ 53 + 4) = 2 ^ 53 + 4 := by
  have hlog : Nat.log 2 (2 ^ 53 + 4) = 53 :=
    (Nat.log_eq_iff (Or.inl (by decide))).mpr ⟨by norm_num, by norm_num⟩
  unfold toDouble
  rw [if_neg (by norm_num), hlog]
  norm_num

theorem hugePool_deref :
    hugePool.deref 1 = some (mkCache (2 ^ 53 + 3) cache_duration_t.TEMPORAL 10) := rfl

theorem hugePool_sum :
    sum_temporal hugePool hugePool.cache_head 0 0 = some (2 ^ 53 + 4, 1) := by
  rw [show hugePool.cache_head = [1] from rfl, sum_temporal, hugePool_deref]
  simp only []
  rw [if_pos (show (mkCache (2 ^ 53 + 3) cache_duration_t.TEMPORAL 10).duration =
      cache_duration_t.TEMPORAL from rfl), sum_temporal,
    show (mkCache (2 ^ 53 + 3) cache_duration_t.TEMPORAL 10).mspace_total = 2 ^ 53 + 3 from rfl,
    toDouble_rounds_up, Nat.zero_add, toDouble_exact_even]

theorem hugePool_run :
    H5LSclaim_space 3 hugePool (2 ^ 53 + 4) cache_claim_t.HARD
      cache_replacement_policy_t.LRU 0 = Outcome.ret 0 (H5LSremove_cache hugePool 1).state := by
  have hscan : scan_cache_list hugePool cache_replacement_policy_t.LRU 0 2
      hugePool.cache_list 1 1 = ScanResult.done 1 1 := by decide
  obtain ⟨LS1, hrem⟩ := remove_cache_live hugePool 1 _ hugePool_deref
  unfold H5LSclaim_space
  rw [if_neg (by decide), if_neg (by decide), if_neg (by decide), hugePool_sum]
  simp only [toDouble_exact_even]
  rw [if_neg (lt_irrefl _), evict_loop,
    if_pos (by rw [toDouble_exact_even]; norm_num), hscan]
  simp only [hugePool_deref, hrem, Outcome.state]
  rw [evict_loop, if_neg]
  rw [show (mkCache (2 ^ 53 + 3) cache_duration_t.TEMPORAL 10).mspace_total = 2 ^ 53 + 3
    from rfl, toDouble_rounds_up, Nat.zero_add, toDouble_exact_even]
  exact lt_irrefl _

/-! ### The free-space branch -/

/-- With `size ≤ mspace_total` and strictly more free space than `size`, the
claim returns SUCCEED, `mspace_left` decreases by `size`, and nothing else
changes, for either claim kind and any policy. -/
theorem claim_from_free_space (fuel : Nat) (LS : cache_storage_t) (size : Nat)
    (type : cache_claim_t) (crp : cache_replacement_policy_t) (tmp0 : Nat)
    (hsize : size ≤ LS.mspace_total) (hleft : size < LS.mspace_left) :
    H5LSclaim_space fuel LS size type crp tmp0 =
      Outcome.ret SUCCEED { LS with mspace_left := LS.mspace_left - size } := by
  unfold H5LSclaim_space
  rw [if_neg (Nat.not_lt.mpr hsize), if_pos hleft]

/-! ## The claims -/

/-- C1, at the boundary `mspace_left == size`, where the code tests
`mspace_left > size`: on a fresh pool of capacity 100 with all 100 bytes free,
a claim of exactly 100 bytes returns FAIL, for either claim kind and any
policy; and with 10 bytes free, a HARD claim of exactly 10 bytes does not take
the free space but removes the registered 40-byte cache and returns with
`mspace_left = 50`. -/
theorem claim_exact_fit_fails :
    (∀ (fuel : Nat) (type : cache_claim_t) (crp : cache_replacement_policy_t) (tmp0 : Nat),
      H5LSclaim_space fuel freshPool 100 type crp tmp0 = Outcome.ret FAIL freshPool) ∧
    (H5LSclaim_space 4 twoTemporalPool 10 cache_claim_t.HARD
        cache_replacement_policy_t.LRU 0).state.trace =
      [Event.remove_cache 1, Event.removeCacheFolder 1] ∧
    (H5LSclaim_space 4 twoTemporalPool 10 cache_claim_t.HARD
        cache_replacement_policy_t.LRU 0).state.mspace_left = 50 := by
  refine ⟨?_, by decide, by decide⟩
  intro fuel type crp tmp0
  cases type <;> rfl

/-- C2, as the code decides it: in a pool whose registry nodes are readable and
whose TEMPORAL sizes sum to less than `2 ^ 53`, take `mspace_left < size` and
`size ≤ mspace_total`.  When the TEMPORAL sizes alone sum to less than `size`
the HARD claim returns FAIL and changes nothing, whatever the free space.
When they sum to at least `size` and the cache that the first scan selects
holds at least `size` bytes, the HARD claim returns SUCCEED, in the state that
removing that cache leaves. -/
theorem hard_claim_counts_only_temporal_bytes (LS : cache_storage_t) (size : Nat)
    (crp : cache_replacement_policy_t) (tmp0 : Nat)
    (hlive : AllLive LS LS.cache_head)
    (hexact : temporal_bytes LS LS.cache_head < 2 ^ 53)
    (hsize : size ≤ LS.mspace_total) (hleft : LS.mspace_left < size) :
    (temporal_bytes LS LS.cache_head < size →
      ∀ fuel, H5LSclaim_space fuel LS size cache_claim_t.HARD crp tmp0 = Outcome.ret FAIL LS) ∧
    (size ≤ temporal_bytes LS LS.cache_head →
      ∀ v obj, first_victim LS crp tmp0 = some v → LS.deref v = some obj →
        size ≤ obj.mspace_total → obj.mspace_total < 2 ^ 53 →
        ∀ fuel, LS.cache_list.length + 2 ≤ fuel →
          H5LSclaim_space fuel LS size cache_claim_t.HARD crp tmp0 =
            Outcome.ret SUCCEED (H5LSremove_cache LS v).state) := by
  obtain ⟨tmp, hsum⟩ := sum_temporal_exact LS LS.cache_head 0 tmp0 hlive (by omega)
  rw [Nat.zero_add] at hsum
  constructor
  · intro hlt fuel
    unfold H5LSclaim_space
    rw [if_neg (by omega), if_neg (by omega), if_neg (by decide), hsum]
    simp only []
    rw [if_pos (lt_toDouble_of_lt hexact hlt)]
  · intro hge v obj hv hobj hcover hobjlt fuel hfuel
    have hsz : toDouble size = size := toDouble_of_lt (by omega)
    unfold first_victim at hv
    rw [hsum] at hv
    simp only [] at hv
    obtain ⟨fuel2, rfl⟩ : ∃ k, fuel = k + 2 := ⟨fuel - 2, by omega⟩
    unfold H5LSclaim_space
    rw [if_neg (by omega), if_neg (by omega), if_neg (by decide), hsum]
    simp only []
    rw [if_neg (by rw [hsz]; omega)]
    obtain ⟨LS1, hrem⟩ := remove_cache_live LS v obj hobj
    rw [evict_loop, if_pos (by rw [hsz]; omega),
      scan_cache_list_fuel LS crp LS.cache_list (fuel2 + 1) tmp tmp (by omega)]
    split at hv
    · rename_i tmp1 stay1 hscan
      cases hv
      rw [hscan]
      simp only [hobj, hrem, Outcome.state]
      rw [evict_loop, if_neg]
      · rfl
      · rw [hsz, Nat.zero_add, toDouble_of_lt hobjlt, toDouble_of_lt hobjlt]
        omega
    · cases hv

/-- C2, instance of the theorem: 10 bytes free, TEMPORAL caches of 40 and 50
bytes, a HARD claim of 40 bytes under LRU succeeds by removing the 40-byte
cache. -/
theorem hard_claim_counts_only_temporal_bytes_witness :
    AllLive twoTemporalPool twoTemporalPool.cache_head ∧
    temporal_bytes twoTemporalPool twoTemporalPool.cache_head < 2 ^ 53 ∧
    40 ≤ twoTemporalPool.mspace_total ∧ twoTemporalPool.mspace_left < 40 ∧
    H5LSclaim_space 4 twoTemporalPool 40 cache_claim_t.HARD cache_replacement_policy_t.LRU 0 =
      Outcome.ret SUCCEED (H5LSremove_cache twoTemporalPool 1).state :=
  ⟨by decide, by decide, by decide, by decide,
    (hard_claim_counts_only_temporal_bytes twoTemporalPool 40 cache_replacement_policy_t.LRU 0
      (by decide) (by decide) (by decide) (by decide)).2 (by decide) 1
      (mkCache 40 cache_duration_t.TEMPORAL 10) (by decide) (by decide) (by decide)
      (by decide) 4 (by decide)⟩

/-- C2 as stated fails: with 10 bytes free and one TEMPORAL cache of 30 bytes,
a HARD claim of 35 bytes has `F < size ≤ F + Σ` (10 < 35 ≤ 40) and
`size ≤ mspace_total`, yet returns FAIL, for every amount of fuel. -/
theorem hard_claim_ignores_free_space :
    smallPool.mspace_left < 35 ∧
    35 ≤ smallPool.mspace_left + temporal_bytes smallPool smallPool.cache_head ∧
    35 ≤ smallPool.mspace_total ∧
    ∀ fuel, H5LSclaim_space fuel smallPool 35 cache_claim_t.HARD
      cache_replacement_policy_t.LRU 0 = Outcome.ret FAIL smallPool :=
  ⟨by decide, by decide, by decide, fun _ => rfl⟩

/-- C3, at the claim's own scenario: capacity 100, TEMPORAL caches of 40 and
50 bytes, 10 bytes free, LRU with the 40-byte cache the victim.  The HARD
claim of 40 bytes returns SUCCEED after the single removal of that cache and
leaves `mspace_left = 50 = 10 + 40`: the 40 claimed bytes are not deducted. -/
theorem evicting_claim_does_not_debit :
    (H5LSclaim_space 4 twoTemporalPool 40 cache_claim_t.HARD
        cache_replacement_policy_t.LRU 0).code = some SUCCEED ∧
    (H5LSclaim_space 4 twoTemporalPool 40 cache_claim_t.HARD
        cache_replacement_policy_t.LRU 0).state.mspace_left = 50 ∧
    (H5LSclaim_space 4 twoTemporalPool 40 cache_claim_t.HARD
        cache_replacement_policy_t.LRU 0).state.trace =
      [Event.remove_cache 1, Event.removeCacheFolder 1] := by
  decide

/-- C4: when `size` exceeds the free space plus the exact sum of the sizes of
the TEMPORAL caches of the registry (every node readable, the sum below
`2 ^ 53` so that the `double` accumulator is exact), a HARD claim returns FAIL
and leaves the pool as it was: same free space, same chains, same heap, and
no event added to the trace, so no backend call was made. -/
theorem unsatisfiable_hard_claim_fails (fuel : Nat) (LS : cache_storage_t) (size : Nat)
    (crp : cache_replacement_policy_t) (tmp0 : Nat)
    (hlive : AllLive LS LS.cache_head)
    (hexact : temporal_bytes LS LS.cache_head < 2 ^ 53)
    (hsize : LS.mspace_left + temporal_bytes LS LS.cache_head < size) :
    H5LSclaim_space fuel LS size cache_claim_t.HARD crp tmp0 = Outcome.ret FAIL LS := by
  unfold H5LSclaim_space
  by_cases htot : LS.mspace_total < size
  · rw [if_pos htot]
  · rw [if_neg htot, if_neg (by omega), if_neg (by decide)]
    obtain ⟨tmp1, hsum⟩ := sum_temporal_exact LS LS.cache_head 0 tmp0 hlive (by omega)
    rw [hsum]
    simp only [Nat.zero_add]
    rw [if_pos (lt_toDouble_of_lt hexact (by omega))]

/-- C4, instance of the theorem: 10 bytes free, one TEMPORAL cache of 30
bytes, a HARD claim of 41 bytes. -/
theorem unsatisfiable_hard_claim_fails_witness :
    AllLive smallPool smallPool.cache_head ∧
    temporal_bytes smallPool smallPool.cache_head < 2 ^ 53 ∧
    smallPool.mspace_left + temporal_bytes smallPool smallPool.cache_head < 41 ∧
    H5LSclaim_space 7 smallPool 41 cache_claim_t.HARD cache_replacement_policy_t.LFU 0 =
      Outcome.ret FAIL smallPool :=
  ⟨by decide, by decide, by decide,
    unsatisfiable_hard_claim_fails 7 smallPool 41 cache_replacement_policy_t.LFU 0
      (by decide) (by decide) (by decide)⟩

/-- C4 as stated fails in two kinds of pool.  A cache of `2 ^ 53 + 3` bytes
with nothing free: the HARD claim of `2 ^ 53 + 4` bytes exceeds free plus
TEMPORAL bytes and is within the capacity, but the `double` accumulator holds
`2 ^ 53 + 4`, the check passes, the cache is removed and the call returns
SUCCEED.  A registry chain that still holds a freed cache, as the function's
own eviction leaves it: after the HARD claim of 40 bytes has removed the
40-byte cache, 50 bytes are free and 10 TEMPORAL bytes registered, and the
HARD claim of 70 bytes reads the freed cache in the summing loop, which is
undefined behaviour. -/
theorem unsatisfiable_hard_claim_not_refused :
    hugePool.mspace_left + temporal_bytes hugePool hugePool.cache_head < 2 ^ 53 + 4 ∧
    2 ^ 53 + 4 ≤ hugePool.mspace_total ∧
    (H5LSclaim_space 3 hugePool (2 ^ 53 + 4) cache_claim_t.HARD
        cache_replacement_policy_t.LRU 0).code = some SUCCEED ∧
    (H5LSclaim_space 3 hugePool (2 ^ 53 + 4) cache_claim_t.HARD
        cache_replacement_policy_t.LRU 0).state.heap 1 = none ∧
    (H5LSclaim_space 3 hugePool (2 ^ 53 + 4) cache_claim_t.HARD
        cache_replacement_policy_t.LRU 0).state.trace =
      [Event.remove_cache 1, Event.removeCacheFolder 1] ∧
    (H5LSclaim_space 4 stalePool 40 cache_claim_t.HARD
        cache_replacement_policy_t.LRU 0).code = some SUCCEED ∧
    (H5LSclaim_space 4 stalePool 40 cache_claim_t.HARD
        cache_replacement_policy_t.LRU 0).state.mspace_left +
      temporal_bytes (H5LSclaim_space 4 stalePool 40 cache_claim_t.HARD
          cache_replacement_policy_t.LRU 0).state
        (H5LSclaim_space 4 stalePool 40 cache_claim_t.HARD
          cache_replacement_policy_t.LRU 0).state.cache_head < 70 ∧
    70 ≤ (H5LSclaim_space 4 stalePool 40 cache_claim_t.HARD
        cache_replacement_policy_t.LRU 0).state.mspace_total ∧
    (H5LSclaim_space 4 (H5LSclaim_space 4 stalePool 40 cache_claim_t.HARD
        cache_replacement_policy_t.LRU 0).state 70 cache_claim_t.HARD
        cache_replacement_policy_t.LRU 0).isUb = true := by
  refine ⟨?_, by decide, ?_, ?_, ?_, by decide, by decide, by decide, by decide⟩
  · show 0 + (2 ^ 53 + 3 + 0) < 2 ^ 53 + 4
    norm_num
  · rw [hugePool_run]
    rfl
  · rw [hugePool_run]
    rfl
  · rw [hugePool_run]
    rfl

/-- C5: a SOFT claim of `size ≤ mspace_total` with `mspace_left < size` returns
FAIL and leaves the pool (capacity, chains, heap, trace) as it was. -/
theorem soft_claim_never_evicts (fuel : Nat) (LS : cache_storage_t) (size : Nat)
    (crp : cache_replacement_policy_t) (tmp0 : Nat)
    (hsize : size ≤ LS.mspace_total) (hleft : LS.mspace_left < size) :
    H5LSclaim_space fuel LS size cache_claim_t.SOFT crp tmp0 = Outcome.ret FAIL LS := by
  unfold H5LSclaim_space
  rw [if_neg (Nat.not_lt.mpr hsize), if_neg (Nat.lt_asymm hleft)]
  rfl

/-- C5, instance of the theorem: 10 bytes free, TEMPORAL caches of 40 and 50
bytes registered, a SOFT claim of 20 bytes. -/
theorem soft_claim_never_evicts_witness :
    20 ≤ twoTemporalPool.mspace_total ∧ twoTemporalPool.mspace_left < 20 ∧
    H5LSclaim_space 7 twoTemporalPool 20 cache_claim_t.SOFT cache_replacement_policy_t.LRU 0 =
      Outcome.ret FAIL twoTemporalPool :=
  ⟨by decide, by decide,
    soft_claim_never_evicts 7 twoTemporalPool 20 cache_replacement_policy_t.LRU 0
      (by decide) (by decide)⟩

/-- C6: a claim of `size > mspace_total` returns FAIL and leaves the pool as it
was, whatever the registry, the free space, the claim kind and the policy. -/
theorem oversized_claim_fails (fuel : Nat) (LS : cache_storage_t) (size : Nat)
    (type : cache_claim_t) (crp : cache_replacement_policy_t) (tmp0 : Nat)
    (hsize : LS.mspace_total < size) :
    H5LSclaim_space fuel LS size type crp tmp0 = Outcome.ret FAIL LS := by
  unfold H5LSclaim_space
  rw [if_pos hsize]

/-- C6, instance of the theorem: capacity 100, a HARD claim of 101 bytes. -/
theorem oversized_claim_fails_witness :
    twoTemporalPool.mspace_total < 101 ∧
    H5LSclaim_space 7 twoTemporalPool 101 cache_claim_t.HARD cache_replacement_policy_t.LRU 0 =
      Outcome.ret FAIL twoTemporalPool :=
  ⟨by decide,
    oversized_claim_fails 7 twoTemporalPool 101 cache_claim_t.HARD
      cache_replacement_policy_t.LRU 0 (by decide)⟩

/-- C7: in every run of `H5LSclaim_space` (any fuel, pool, size, claim kind,
policy and initial `tmp`, and whether the run returns, reaches undefined
behaviour or exhausts its fuel), the registry chain is unchanged, every cache
that was PERSISTENT before the call is still in the heap, unchanged, and
every cache passed to `H5LSremove_cache` during the call was a TEMPORAL
cache. -/
theorem persistent_never_evicted (fuel : Nat) (LS : cache_storage_t) (size : Nat)
    (type : cache_claim_t) (crp : cache_replacement_policy_t) (tmp0 : Nat) :
    (H5LSclaim_space fuel LS size type crp tmp0).state.cache_head = LS.cache_head ∧
    (∀ p obj, LS.heap p = some obj → obj.duration = cache_duration_t.PERSISTENT →
      (H5LSclaim_space fuel LS size type crp tmp0).state.heap p = some obj) ∧
    ∃ evs, (H5LSclaim_space fuel LS size type crp tmp0).state.trace = LS.trace ++ evs ∧
      ∀ p, Event.remove_cache p ∈ evs →
        ∃ obj, LS.heap p = some obj ∧ obj.duration = cache_duration_t.TEMPORAL := by
  obtain ⟨hhead, -, hheap, hevs⟩ := claim_space_only_temporal fuel LS size type crp tmp0
  refine ⟨hhead, ?_, hevs⟩
  intro p obj hp hd
  rcases hheap p with h | ⟨-, obj1, hobj1, hd1⟩
  · rw [h]
    exact hp
  · rw [hp] at hobj1
    cases hobj1
    rw [hd] at hd1
    cases hd1

/-- C9 fails on a full pool of capacity 100 holding a PERSISTENT cache of 10
bytes and TEMPORAL caches of 40 and 50 bytes: the HARD claim of 60 bytes
under LRU removes the 40-byte cache, and in the second round the scan stays
on the first node for ever.  Whatever the fuel, the run ends by exhausting
it. -/
theorem claim_second_round_never_returns (fuel : Nat) :
    (H5LSclaim_space fuel fullPool 60 cache_claim_t.HARD
      cache_replacement_policy_t.LRU 0).isTimeout = true := by
  rcases fuel with _ | _ | _ | _ | _ | fuel
  · decide
  · decide
  · decide
  · decide
  · decide
  · have hscan : scan_cache_list fullPool cache_replacement_policy_t.LRU 0 (fuel + 4)
        fullPool.cache_list 2 2 = ScanResult.done 1 1 := by
      rw [scan_cache_list_fuel _ _ _ _ _ _ (by simp [fullPool, mkPool])]
      decide
    have hsum : sum_temporal fullPool fullPool.cache_head 0 0 = some (90, 2) := by decide
    have hobj : fullPool.deref 1 = some (mkCache 40 cache_duration_t.TEMPORAL 10) := by decide
    obtain ⟨hlist, -, -, -, -, -⟩ := remove_cache_frame fullPool 1
    have hheap : (H5LSremove_cache fullPool 1).state.deref 3 =
        some (mkCache 10 cache_duration_t.PERSISTENT 5) := by
      rcases remove_cache_effect fullPool 1 with h | ⟨-, -, obj, -, -, h, -⟩
      · simp only [cache_storage_t.deref, h.1]
        decide
      · simp only [cache_storage_t.deref, h]
        decide
    obtain ⟨LS1, hrem⟩ := remove_cache_live fullPool 1 _ hobj
    rw [hrem] at hlist hheap
    simp only [Outcome.state] at hlist hheap
    unfold H5LSclaim_space
    rw [if_neg (by decide), if_neg (by decide), if_neg (by decide), hsum]
    simp only []
    rw [if_neg (by decide), evict_loop, if_pos (by decide), hscan]
    simp only [hobj, hrem]
    rw [evict_loop, if_pos (by decide), hlist]
    have hstuck := scan_cache_list_stuck LS1 cache_replacement_policy_t.LRU
      (toDouble (0 + toDouble (mkCache 40 cache_duration_t.TEMPORAL 10).mspace_total)) 3 [1, 2]
      _ (by decide) hheap (by decide) (fuel + 3) 1 1
    simp only [fullPool, mkPool] at hstuck ⊢
    rw [hstuck]
    rfl

/-- C10, as the code decides it, for a readable cache `p` that is in the
registry chain `cache_head`.  When no node before it has a `NULL` cache,
`H5LSremove_cache` returns 0 (SUCCEED) and the new `mspace_left` is the old
one plus the cache's `mspace_total` modulo `2 ^ 64`, that is their sum
whenever the sum is an `hsize_t`.  When a node with a `NULL` cache precedes
it, the walk stops there: the call still returns 0, and `mspace_left` and the
heap are unchanged.  In both cases `mspace_total` and the policy of the pool
are unchanged. -/
theorem remove_cache_credits_size (LS : cache_storage_t) (p : Nat) (obj : cache_t)
    (hobj : LS.deref p = some obj) (hreg : p ∈ LS.cache_head) :
    (WalkReaches LS p →
      ∃ LS1, H5LSremove_cache LS p = Outcome.ret SUCCEED LS1 ∧
        LS1.mspace_left = (LS.mspace_left + obj.mspace_total) % 2 ^ 64 ∧
        (LS.mspace_left + obj.mspace_total < 2 ^ 64 →
          LS1.mspace_left = LS.mspace_left + obj.mspace_total) ∧
        LS1.mspace_total = LS.mspace_total ∧
        LS1.replacement_policy = LS.replacement_policy) ∧
    (¬ WalkReaches LS p →
      ∃ LS1, H5LSremove_cache LS p = Outcome.ret SUCCEED LS1 ∧
        LS1.mspace_left = LS.mspace_left ∧ LS1.heap = LS.heap ∧
        LS1.mspace_total = LS.mspace_total ∧
        LS1.replacement_policy = LS.replacement_policy) := by
  have hp0 : p ≠ 0 := deref_ne_zero hobj
  have hheap : LS.heap p = some obj := heap_of_deref hobj
  constructor
  · intro hwalk
    obtain ⟨rest, hdrop⟩ := dropWhile_walk_reaches p LS.cache_head hreg hwalk
    unfold H5LSremove_cache
    simp only [if_pos hp0]
    split_ifs <;>
      simp [hdrop, hp0, cache_storage_t.deref, hheap, SUCCEED]
  · intro hwalk
    have hpre : 0 ∈ LS.cache_head.takeWhile (fun c => c != p) := by
      unfold WalkReaches at hwalk
      exact not_not.mp hwalk
    obtain ⟨rest, hdrop⟩ := dropWhile_walk_stops p LS.cache_head hpre
    unfold H5LSremove_cache
    simp only [if_pos hp0]
    split_ifs <;> simp [hdrop, SUCCEED]

/-- C10, instance of the theorem: removing the 50-byte cache, second in the
chain, from the pool with 10 bytes free leaves 60 bytes free. -/
theorem remove_cache_credits_size_witness :
    twoTemporalPool.deref 2 = some (mkCache 50 cache_duration_t.TEMPORAL 20) ∧
    2 ∈ twoTemporalPool.cache_head ∧ WalkReaches twoTemporalPool 2 ∧
    ∃ LS1, H5LSremove_cache twoTemporalPool 2 = Outcome.ret SUCCEED LS1 ∧
      LS1.mspace_left =
        (twoTemporalPool.mspace_left +
          (mkCache 50 cache_duration_t.TEMPORAL 20).mspace_total) % 2 ^ 64 ∧
      (twoTemporalPool.mspace_left +
          (mkCache 50 cache_duration_t.TEMPORAL 20).mspace_total < 2 ^ 64 →
        LS1.mspace_left = twoTemporalPool.mspace_left +
          (mkCache 50 cache_duration_t.TEMPORAL 20).mspace_total) ∧
      LS1.mspace_total = twoTemporalPool.mspace_total ∧
      LS1.replacement_policy = twoTemporalPool.replacement_policy :=
  ⟨by decide, by decide, by decide,
    (remove_cache_credits_size twoTemporalPool 2 (mkCache 50 cache_duration_t.TEMPORAL 20)
      (by decide) (by decide)).1 (by decide)⟩

/-- C10 as stated fails.  With a `NULL`-cache node at the head of the chain,
the 40-byte cache is readable and reachable from the registry head, yet
`H5LSremove_cache` stops its walk on the `NULL` node: it calls the backend,
returns SUCCEED, frees nothing and leaves `mspace_left` at 10.  With
`mspace_left = 2 ^ 64 - 1`, removing the 40-byte cache wraps `mspace_left`
around to 39. -/
theorem remove_cache_stops_at_null_node :
    1 ∈ nullFirstPool.cache_head ∧
    nullFirstPool.deref 1 = some (mkCache 40 cache_duration_t.TEMPORAL 10) ∧
    nullFirstPool.mspace_left = 10 ∧
    (H5LSremove_cache nullFirstPool 1).code = some SUCCEED ∧
    (H5LSremove_cache nullFirstPool 1).state.mspace_left = 10 ∧
    (H5LSremove_cache nullFirstPool 1).state.heap 1 =
      some (mkCache 40 cache_duration_t.TEMPORAL 10) ∧
    (H5LSremove_cache nullFirstPool 1).state.trace =
      [Event.remove_cache 1, Event.removeCacheFolder 1] ∧
    1 ∈ wrapPool.cache_head ∧
    wrapPool.deref 1 = some (mkCache 40 cache_duration_t.TEMPORAL 10) ∧
    wrapPool.mspace_left = 2 ^ 64 - 1 ∧
    (H5LSremove_cache wrapPool 1).code = some SUCCEED ∧
    (H5LSremove_cache wrapPool 1).state.mspace_left = 39 := by
  decide

/-! ## The registry functions -/

/-- C11 fails: `H5LSremove_cache` never changes the chain `cache_head`, whatever
the pool and the cache.  In the pool with caches of 40 and 50 bytes, removing
the 40-byte cache (pointer 1) returns SUCCEED and frees it, but pointer 1 is
still in the chain; a second removal of the same cache finds that node and
reads the size of the freed object: the run reaches undefined behaviour. -/
theorem remove_cache_leaves_dangling_node :
    (∀ (LS : cache_storage_t) (p : Nat),
      (H5LSremove_cache LS p).state.cache_head = LS.cache_head) ∧
    (H5LSremove_cache twoTemporalPool 1).code = some SUCCEED ∧
    (H5LSremove_cache twoTemporalPool 1).state.heap 1 = none ∧
    1 ∈ (H5LSremove_cache twoTemporalPool 1).state.cache_head ∧
    (H5LSremove_cache (H5LSremove_cache twoTemporalPool 1).state 1).isUb = true :=
  ⟨fun LS p => (remove_cache_frame LS p).2.1, by decide, by decide, by decide, by decide⟩

/-- C12, as the code decides it: for a cache `p` that is not in the chain
`cache_head`, `H5LSremove_cache` leaves `mspace_left`, the heap and both
chains unchanged.  For `p = NULL` it returns FAIL and makes no backend call.
For any other `p` it returns 0, and on the I/O node with a scope other than
GLOBAL it calls the backend `removeCacheFolder` on `p`. -/
theorem remove_unregistered_cache (LS : cache_storage_t) (p : Nat)
    (hreg : p ∉ LS.cache_head) :
    (H5LSremove_cache LS p).state.mspace_left = LS.mspace_left ∧
    (H5LSremove_cache LS p).state.heap = LS.heap ∧
    (H5LSremove_cache LS p).state.cache_head = LS.cache_head ∧
    (H5LSremove_cache LS p).state.cache_list = LS.cache_list ∧
    (p = 0 → (H5LSremove_cache LS p).code = some FAIL ∧
      (H5LSremove_cache LS p).state.trace = LS.trace ++ [Event.remove_cache p]) ∧
    (p ≠ 0 → (H5LSremove_cache LS p).code = some 0 ∧
      (H5LSremove_cache LS p).state.trace =
        LS.trace ++ Event.remove_cache p ::
          (if LS.io_node && LS.scope != "GLOBAL" then [Event.removeCacheFolder p] else [])) := by
  obtain ⟨hlist, hhead, -, -, -, -⟩ := remove_cache_frame LS p
  have heff : (H5LSremove_cache LS p).state.heap = LS.heap ∧
      (H5LSremove_cache LS p).state.mspace_left = LS.mspace_left := by
    rcases remove_cache_effect LS p with h | ⟨-, hmem, -⟩
    · exact h
    · exact absurd hmem hreg
  refine ⟨heff.2, heff.1, hhead, hlist, ?_, ?_⟩
  · intro hp0
    subst hp0
    exact ⟨rfl, rfl⟩
  · intro hp0
    have hnot : ∀ c rest, LS.cache_head.dropWhile (fun c => c != 0 && c != p) = c :: rest →
        ¬ ((c != 0 && c == p) = true) := by
      intro c rest hdrop hc
      have hcp : c = p := by
        simp at hc
        exact hc.2
      have hmem : c ∈ LS.cache_head :=
        (List.dropWhile_suffix (fun c => c != 0 && c != p)).subset
          (hdrop ▸ List.mem_cons_self c rest)
      exact hreg (hcp ▸ hmem)
    unfold H5LSremove_cache
    simp only [if_pos hp0]
    by_cases hio : (LS.io_node && LS.scope != "GLOBAL") = true
    · simp only [hio, if_true]
      split
      · rename_i c rest hdrop
        rw [if_neg (hnot c rest hdrop)]
        simp [Outcome.code, Outcome.state]
      · simp [Outcome.code, Outcome.state]
    · simp only [hio]
      split
      · rename_i c rest hdrop
        rw [if_neg (hnot c rest hdrop)]
        simp [Outcome.code, Outcome.state]
      · simp [Outcome.code, Outcome.state]

/-- C12, instance of the theorem: removing the cache at pointer 5, which is
in the heap but in neither chain, returns 0 and calls the backend. -/
theorem remove_unregistered_cache_witness :
    5 ∉ strayPool.cache_head ∧
    (H5LSremove_cache strayPool 5).state.mspace_left = strayPool.mspace_left ∧
    (H5LSremove_cache strayPool 5).state.cache_head = strayPool.cache_head ∧
    (H5LSremove_cache strayPool 5).code = some 0 ∧
    (H5LSremove_cache strayPool 5).state.trace =
      strayPool.trace ++ Event.remove_cache 5 ::
        (if strayPool.io_node && strayPool.scope != "GLOBAL" then [Event.removeCacheFolder 5]
          else []) :=
  ⟨by decide, (remove_unregistered_cache strayPool 5 (by decide)).1,
    (remove_unregistered_cache strayPool 5 (by decide)).2.2.1,
    ((remove_unregistered_cache strayPool 5 (by decide)).2.2.2.2.2 (by decide)).1,
    ((remove_unregistered_cache strayPool 5 (by decide)).2.2.2.2.2 (by decide)).2⟩

/-- C12 as stated fails: the cache at pointer 5 is readable and not in the
registry, yet `H5LSremove_cache` returns SUCCEED and calls the backend
`removeCacheFolder` on it. -/
theorem remove_unregistered_cache_succeeds :
    5 ∉ strayPool.cache_head ∧ 5 ∉ strayPool.cache_list ∧
    (H5LSremove_cache strayPool 5).code = some SUCCEED ∧
    (H5LSremove_cache strayPool 5).state.trace =
      [Event.remove_cache 5, Event.removeCacheFolder 5] := by
  decide

/-- C13 fails.  On a process that is not the I/O node, with caches of 40 and
50 bytes registered, `H5LSremove_cache_all` never leaves its loop: the run
exhausts every amount of fuel, whatever the backend returns.  On the I/O node
the same pool is walked to the end, both caches are freed and both nodes keep
a `NULL` cache, but `mspace_left` stays 10 while `mspace_total` is 100. -/
theorem remove_cache_all_hangs_off_io_node :
    (∀ (removeCacheFolder : Nat → Int) (fuel : Nat) (ret0 : Int),
      H5LSremove_cache_all removeCacheFolder fuel otherRankPool ret0 =
        Outcome.timeout otherRankPool) ∧
    (H5LSremove_cache_all (fun _ => SUCCEED) 3 twoTemporalPool 0).code = some SUCCEED ∧
    (H5LSremove_cache_all (fun _ => SUCCEED) 3 twoTemporalPool 0).state.cache_head = [0, 0] ∧
    (H5LSremove_cache_all (fun _ => SUCCEED) 3 twoTemporalPool 0).state.mspace_left = 10 ∧
    (H5LSremove_cache_all (fun _ => SUCCEED) 3 twoTemporalPool 0).state.mspace_total = 100 := by
  refine ⟨?_, by decide, by decide, by decide, by decide⟩
  intro removeCacheFolder fuel ret0
  exact remove_cache_all_loop_stuck removeCacheFolder otherRankPool rfl [] 1 [2] ret0 fuel

/-- C14, as the code decides it: for every readable cache, already in a chain
or not, `H5LSregister_cache` returns SUCCEED, makes `cache_list` a new node
that holds the cache, sets the cache's `time_stamp[0]` to the current time and
its `count` to 0, and changes nothing else of the cache or of `cache_head`. -/
theorem register_cache_always_succeeds (LS : cache_storage_t) (cache : Nat) (now : Int)
    (next0 : List Nat) (obj : cache_t) (first : Int) (later : List Int)
    (hobj : LS.deref cache = some obj)
    (hts : obj.access_history.time_stamp = first :: later) :
    (H5LSregister_cache LS cache now next0).code = some SUCCEED ∧
    (H5LSregister_cache LS cache now next0).state.cache_list = cache :: next0 ∧
    (H5LSregister_cache LS cache now next0).state.cache_head = LS.cache_head ∧
    (H5LSregister_cache LS cache now next0).state.mspace_left = LS.mspace_left ∧
    (H5LSregister_cache LS cache now next0).state.heap cache =
      some { obj with access_history := { time_stamp := now :: later, count := 0 } } := by
  have hobj1 : cache_storage_t.deref { LS with cache_list := cache :: next0 } cache =
      some obj := hobj
  unfold H5LSregister_cache
  simp only [hobj1, hts]
  simp [Outcome.code, Outcome.state]

/-- C14, instance of the theorem: registering again, at time 99, the 40-byte
cache that is already in both chains. -/
theorem register_cache_always_succeeds_witness :
    accessedPool.deref 1 = some accessedCache ∧
    accessedCache.access_history.time_stamp = [10, 15] ∧
    (H5LSregister_cache accessedPool 1 99 []).code = some SUCCEED ∧
    (H5LSregister_cache accessedPool 1 99 []).state.heap 1 =
      some { accessedCache with access_history := { time_stamp := [99, 15], count := 0 } } :=
  ⟨by decide, by decide,
    (register_cache_always_succeeds accessedPool 1 99 [] accessedCache 10 [15]
      (by decide) (by decide)).1,
    (register_cache_always_succeeds accessedPool 1 99 [] accessedCache 10 [15]
      (by decide) (by decide)).2.2.2.2⟩

/-- C14 as stated fails: the 40-byte cache is already in both chains, with
`time_stamp[0] = 10` and `count = 1`; registering it again at time 99 returns
SUCCEED, replaces `cache_list` by the single new node, and leaves the cache
with `time_stamp[0] = 99` and `count = 0`. -/
theorem duplicate_registration_accepted :
    1 ∈ accessedPool.cache_head ∧ 1 ∈ accessedPool.cache_list ∧
    (accessedPool.heap 1).map (fun c => (c.access_history.time_stamp.head?,
      c.access_history.count)) = some (some 10, 1) ∧
    (H5LSregister_cache accessedPool 1 99 []).code = some SUCCEED ∧
    (H5LSregister_cache accessedPool 1 99 []).state.cache_list = [1] ∧
    ((H5LSregister_cache accessedPool 1 99 []).state.heap 1).map
      (fun c => (c.access_history.time_stamp.head?, c.access_history.count)) =
        some (some 99, 0) := by
  decide

/-! ## The access history -/

/-- C15 fails once `count` has reached `MAX_NUM_CACHE_ACCESS`.  The LRU branch
reads `time_stamp[count]`, not `time_stamp[count mod MAX_NUM_CACHE_ACCESS]`:
whenever `count` of `a` is at least the array length the read is outside the
array, whatever `b` is.  While both counts are inside the array the result is
the comparison of the latest access times.  Instance with two slots: a cache
registered at time 1 and accessed at times 5 and 10 has `count = 2` and its
latest access, 10, in slot 0; against a cache last accessed at time 20 the
claim gives true, the code reads `time_stamp[2]`. -/
theorem lru_reads_slot_count_unreduced :
    (∀ a b : cache_t,
      (a.access_history.time_stamp.length : Int) ≤ a.access_history.count →
        H5LScompare_cache a b cache_replacement_policy_t.LRU = none) ∧
    (∀ (MAX : Nat) (a b : cache_t) (ta tb : Int),
      0 ≤ a.access_history.count → a.access_history.count < (MAX : Int) →
      0 ≤ b.access_history.count → b.access_history.count < (MAX : Int) →
      a.access_history.latest MAX = some ta → b.access_history.latest MAX = some tb →
        H5LScompare_cache a b cache_replacement_policy_t.LRU = some (decide (ta < tb))) ∧
    record_accesses 2 [5, 10] freshCache = some wrappedCache ∧
    wrappedCache.access_history.latest 2 = some 10 ∧
    registeredCache.access_history.latest 2 = some 20 ∧
    H5LScompare_cache wrappedCache registeredCache cache_replacement_policy_t.LRU = none := by
  refine ⟨?_, ?_, by decide, by decide, by decide, by decide⟩
  · intro a b h
    have hread : a.access_history.read a.access_history.count = none := by
      unfold AccessHistory.read
      split_ifs with h0
      · rw [List.getElem?_eq_none_iff]
        have : (a.access_history.time_stamp.length : Int) ≤
            (a.access_history.count.toNat : Int) := by
          rw [Int.toNat_of_nonneg h0]
          exact h
        exact_mod_cast this
      · rfl
    simp only [H5LScompare_cache, hread]
  · intro MAX a b ta tb ha0 ha1 hb0 hb1 hta htb
    unfold AccessHistory.latest at hta htb
    rw [Int.emod_eq_of_lt ha0 ha1] at hta
    rw [Int.emod_eq_of_lt hb0 hb1] at htb
    simp only [H5LScompare_cache, hta, htb]

/-- C16 fails: the LFU branch returns `fa < fb` with `fa`, `fb` the mean
intervals `(latest - first) / count`, so it is true exactly when `a` has the
smaller mean interval, that is the larger access frequency.  Instance: both
caches have `count = 1 > 0` and `latest > first`; the one accessed again after
100 (mean interval 100) is the less frequently accessed, yet compared with
the one accessed again after 10 (mean interval 10) the result is false, and
it is true the other way round. -/
theorem lfu_prefers_more_frequent :
    (∀ (a b : cache_t) (ma mb : Int),
      a.access_history.meanInterval = some ma → b.access_history.meanInterval = some mb →
        H5LScompare_cache a b cache_replacement_policy_t.LFU = some (decide (ma < mb))) ∧
    slowCache.access_history.meanInterval = some 100 ∧
    fastCache.access_history.meanInterval = some 10 ∧
    H5LScompare_cache slowCache fastCache cache_replacement_policy_t.LFU = some false ∧
    H5LScompare_cache fastCache slowCache cache_replacement_policy_t.LFU = some true := by
  refine ⟨?_, by decide, by decide, by decide, by decide⟩
  intro a b ma mb ha hb
  simp only [H5LScompare_cache, ha, hb]

/-- C17 fails at the `MAX_NUM_CACHE_ACCESS`-th access: when `count + 1` equals
the number of slots, `H5LSrecord_cache_access` writes slot
`count mod MAX_NUM_CACHE_ACCESS = 0`, so `time_stamp[0]` becomes the time of
that access.  Instance with two slots: registered at time 1, accessed at
times 5 and 10, the cache ends with `time_stamp[0] = 10`. -/
theorem record_overwrites_first_slot :
    (∀ (MAX : Nat) (now : Int) (cache : cache_t), 0 < MAX → (MAX : Int) < 2 ^ 31 →
      cache.access_history.time_stamp.length = MAX →
      cache.access_history.count + 1 = (MAX : Int) →
        ∃ cache1, H5LSrecord_cache_access MAX now cache = some (SUCCEED, cache1) ∧
          cache1.access_history.time_stamp[0]? = some now) ∧
    freshCache.access_history.time_stamp[0]? = some 1 ∧
    freshCache.access_history.count = 0 ∧
    record_accesses 2 [5, 10] freshCache = some wrappedCache ∧
    wrappedCache.access_history.time_stamp[0]? = some 10 := by
  refine ⟨?_, by decide, by decide, by decide, by decide⟩
  intro MAX now cache hMAX hint hlen hcount
  refine ⟨_, record_cache_access_eq MAX now cache hMAX hlen (by omega) (by omega), ?_⟩
  have hzero : ((cache.access_history.count + 1) % (MAX : Int)).toNat = 0 := by
    rw [hcount, Int.emod_self]
    rfl
  simp only [hzero]
  exact List.getElem?_set_self (by omega)

/-- C20 fails: after a round the loop sets `tmp = stay`, the cache it has
just passed to `H5LSremove_cache`.  With a 0-byte and a 50-byte TEMPORAL
cache in both chains, the HARD claim of 30 bytes removes and frees the 0-byte
cache, and the scan of the second round reads that freed cache: the run
reaches undefined behaviour.  When the 0-byte cache is only in `cache_list`,
so that `H5LSremove_cache` does not find it in `cache_head`, the same cache
is passed to `H5LSremove_cache` again in the second round. -/
theorem evicted_cache_is_used_again :
    (H5LSclaim_space 6 zeroPool 30 cache_claim_t.HARD
        cache_replacement_policy_t.LRU 0).isUb = true ∧
    (H5LSclaim_space 6 zeroPool 30 cache_claim_t.HARD
        cache_replacement_policy_t.LRU 0).state.trace =
      [Event.remove_cache 1, Event.removeCacheFolder 1] ∧
    (H5LSclaim_space 6 zeroPool 30 cache_claim_t.HARD
        cache_replacement_policy_t.LRU 0).state.heap 1 = none ∧
    scan_cache_list (H5LSremove_cache zeroPool 1).state cache_replacement_policy_t.LRU 0 2
      zeroPool.cache_list 1 1 = ScanResult.ub ∧
    (H5LSclaim_space 3 listOnlyPool 30 cache_claim_t.HARD
        cache_replacement_policy_t.LRU 0).state.trace =
      [Event.remove_cache 1, Event.removeCacheFolder 1,
        Event.remove_cache 1, Event.removeCacheFolder 1] := by
  decide

end H5LS
